import Mathlib

/-!
# Verification of the dungeon generator and navigator (`dungeon.py`)

A shallow embedding of the procedural dungeon generator: the grid/tile
model, room placement (`fill_room`), corridor pathfinding (`create_path`),
staircase placement (`add_staircase`), level generation (`make_level`) and
the movement loop of `__main__`.

Conventions of the embedding:
* A grid cell holds `Option Char`: `none` is Python's `None` (the `Empty`
  tile) and `some c` is the tile character (`'-'`, `'|'`, `'.'`, `'+'`,
  `'#'`, `'<'`, `'>'`, transient `'$'`).
* A grid is a list of 80 columns, each a list of 20 cells, indexed as
  `level[x][y]`, exactly like the source's list-of-lists.
* Randomness (`random.randint`, `random.choice`, `random.sample`) is
  modelled by an explicit stream of naturals; `randint lo hi n` maps the
  stream value `n` uniformly-style onto `[lo, hi]` by `lo + n % (hi-lo+1)`,
  so every value the source can draw is realised by some stream.
* The unbounded retry loop of room placement and the recursion of
  `create_path` take explicit fuel; `make_level` returns `none` when fuel
  runs out (the source would simply keep looping/recursing).
* Python's list indexing raises `IndexError` out of range and wraps
  negative indices: the movement loop models this exactly (`pyGet`).
  Inside generation every access is bounds-checked by the source before it
  happens, and there the embedding uses total accessors (`cellAt`,
  `setCell`) that treat out-of-range cells as `Empty` / ignore the write.
-/

namespace Dungeon

/-- Grid width, `X_DIM = 80` in the source. -/
def X_DIM : Int := 80

/-- Grid height, `Y_DIM = 20` in the source. -/
def Y_DIM : Int := 20

/-- Minimum separation between rooms, `MIN_SEP = 2` in the source. -/
def MIN_SEP : Int := 2

/-- `Point = namedtuple('Point', 'x y')` of the source. -/
structure Pt where
  x : Int
  y : Int
deriving DecidableEq, Repr

/-- `Room = namedtuple('Room', 'x y width height')` of the source. -/
structure Room where
  x : Int
  y : Int
  width : Int
  height : Int
deriving DecidableEq, Repr

/-- A level grid: `X_DIM` columns of `Y_DIM` cells, indexed `level[x][y]`. -/
abbrev Grid := List (List (Option Char))

/-- The all-`Empty` starting grid built at the top of `make_level`. -/
def emptyGrid : Grid := List.replicate 80 (List.replicate 20 none)

/-- The grid has exactly 80 columns of 20 cells each. -/
def dimsOK (g : Grid) : Bool := g.length == 80 && g.all (fun col => col.length == 20)

/-- `0 ≤ x < X_DIM ∧ 0 ≤ y < Y_DIM`. -/
def inBounds (p : Pt) : Bool := 0 ≤ p.x && p.x < 80 && 0 ≤ p.y && p.y < 20

/-- Read `level[x][y]`. All generation-side reads are bounds-checked by the
source before they happen; out-of-range cells read as `Empty` here. -/
def cellAt (g : Grid) (p : Pt) : Option Char :=
  if inBounds p then (g.getD p.x.toNat []).getD p.y.toNat none else none

/-- Write `level[x][y] = v`. All generation-side writes are in range in the
source; an out-of-range write is ignored here. -/
def setCell (g : Grid) (p : Pt) (v : Option Char) : Grid :=
  if inBounds p then g.set p.x.toNat ((g.getD p.x.toNat []).set p.y.toNat v) else g

/-- Squared euclidean distance.  The source's `dist` compares
`((x0-x1)**2 + (y0-y1)**2)**0.5`; square root is strictly monotone, so
ordering by the squared distance orders candidate points identically. -/
def dist2 (p q : Pt) : Int := (p.x - q.x) * (p.x - q.x) + (p.y - q.y) * (p.y - q.y)

/-- The four orthogonal neighbour candidates of `p0`, in the source's
enumeration order `[(-1, 0), (1, 0), (0, -1), (0, 1)]`. -/
def neighbors (p0 : Pt) : List Pt :=
  [⟨p0.x - 1, p0.y⟩, ⟨p0.x + 1, p0.y⟩, ⟨p0.x, p0.y - 1⟩, ⟨p0.x, p0.y + 1⟩]

/-- A cell a corridor may pass through: `level[p.x][p.y] in [None, '#']`. -/
def passable (t : Option Char) : Bool := t == none || t == some '#'

/-- Stable insertion of `p` into a list ordered by distance to `p1`:
`p` goes before the first strictly more distant element, matching the
stable `points.sort(key=lambda i: dist(i, p1))` of the source. -/
def insertByDist (p1 p : Pt) : List Pt → List Pt
  | [] => [p]
  | q :: qs => if dist2 q p1 ≤ dist2 p p1 then q :: insertByDist p1 p qs else p :: q :: qs

/-- Stable sort of candidate points by distance to `p1`. -/
def sortByDist (p1 : Pt) : List Pt → List Pt
  | [] => []
  | p :: ps => insertByDist p1 p (sortByDist p1 ps)

/-- The loop body of `create_path`: try each candidate in order, mark it
with the transient `'$'`, recurse, commit `'#'` on success or restore the
saved value on failure.  `cp` is the recursive call at one fuel less. -/
def createPathGo (cp : Grid → Pt → Pt → Bool × Grid) (p1 : Pt) :
    List Pt → Grid → Bool × Grid
  | [], g => (false, g)
  | p :: ps, g =>
    let old := cellAt g p
    let g1 := setCell g p (some '$')
    match cp g1 p p1 with
    | (true, g2) => (true, setCell g2 p (some '#'))
    | (false, g2) => createPathGo cp p1 ps (setCell g2 p old)

/-- `create_path(level, p0, p1)` of the source, with explicit recursion
fuel.  Returns the success flag together with the resulting grid.  With
fuel exhausted it reports failure on the unchanged grid; the source's
recursion depth is bounded by the number of passable cells, so any fuel
of at least `80 * 20 + 1` behaves identically to the source. -/
def createPath : Nat → Grid → Pt → Pt → Bool × Grid
  | 0, g, _, _ => (false, g)
  | fuel + 1, g, p0, p1 =>
    if p1 ∈ neighbors p0 then (true, g)
    else
      createPathGo (createPath fuel) p1
        (sortByDist p1 ((neighbors p0).filter fun p => inBounds p && passable (cellAt g p)))
        g

/-- Setting an entry back to the value read at the same index is the
identity, for any list (out-of-range sets are no-ops). -/
theorem list_set_getD (l : List α) (n : Nat) (d : α) :
    l.set n (l.getD n d) = l ∨ l.length ≤ n := by
  induction l generalizing n with
  | nil => right; exact Nat.zero_le n
  | cons a t ih =>
    cases n with
    | zero => left; simp [List.getD]
    | succ m =>
      rcases ih m with h1 | h2
      · left; simpa [List.getD] using h1
      · right; simpa using Nat.succ_le_succ h2

/-- An out-of-range `List.set` leaves the list unchanged. -/
theorem list_set_oob (l : List α) (n : Nat) (v : α) (h : l.length ≤ n) :
    l.set n v = l := by
  induction l generalizing n with
  | nil => rfl
  | cons a t ih =>
    cases n with
    | zero => exact absurd h (by simp)
    | succ m =>
      have := ih m (Nat.le_of_succ_le_succ h)
      simp [List.set, this]

/-- In-range form of `list_set_getD`. -/
theorem list_set_getD_self (l : List α) (n : Nat) (d : α) :
    l.set n (l.getD n d) = l := by
  rcases list_set_getD l n d with h | h
  · exact h
  · exact list_set_oob l n _ h

/-- Two successive `List.set` at the same index keep only the second. -/
theorem list_set_set (l : List α) (n : Nat) (v w : α) :
    (l.set n v).set n w = l.set n w := by
  induction l generalizing n with
  | nil => rfl
  | cons a t ih =>
    cases n with
    | zero => rfl
    | succ m => simp [List.set, ih]

/-- Reading back the column written by an in-range set. -/
theorem list_getD_set_self (l : List α) (n : Nat) (v : α) (d : α) (h : n < l.length) :
    (l.set n v).getD n d = v := by
  induction l generalizing n with
  | nil => exact absurd h (by simp)
  | cons a t ih =>
    cases n with
    | zero => rfl
    | succ m => exact ih m (Nat.lt_of_succ_lt_succ h)

/-- Writing back the value just read restores the grid exactly. -/
theorem setCell_cellAt (g : Grid) (p : Pt) : setCell g p (cellAt g p) = g := by
  unfold setCell cellAt
  by_cases h : inBounds p = true
  · simp only [h, if_true]
    rw [list_set_getD_self]
    by_cases hx : p.x.toNat < g.length
    · have : g.getD p.x.toNat [] = g[p.x.toNat] := List.getD_eq_getElem g [] hx
      rw [this]
      rcases list_set_getD g p.x.toNat [] with h1 | h1
      · rw [List.getD_eq_getElem g [] hx] at h1; exact h1
      · exact absurd hx (Nat.not_lt.mpr h1)
    · exact list_set_oob _ _ _ (Nat.le_of_not_lt hx)
  · simp [h]

/-- Overwriting a cell twice keeps only the second write. -/
theorem setCell_setCell (g : Grid) (p : Pt) (v w : Option Char) :
    setCell (setCell g p v) p w = setCell g p w := by
  unfold setCell
  by_cases h : inBounds p = true
  · simp only [h, if_true]
    by_cases hx : p.x.toNat < g.length
    · have h1 : (g.set p.x.toNat ((g.getD p.x.toNat []).set p.y.toNat v)).getD p.x.toNat []
          = (g.getD p.x.toNat []).set p.y.toNat v :=
        list_getD_set_self g p.x.toNat _ [] hx
      rw [h1, list_set_set, list_set_set]
    · have hle : g.length ≤ p.x.toNat := Nat.le_of_not_lt hx
      rw [list_set_oob _ _ _ hle, list_set_oob _ _ _ hle]
  · simp [h]

/-- Failure atomicity of the loop body: if every candidate attempt fails,
the grid it hands back is the grid it was given, provided the recursive
call is itself failure-atomic. -/
theorem createPathGo_false (cp : Grid → Pt → Pt → Bool × Grid)
    (hcp : ∀ g p q g2, cp g p q = (false, g2) → g2 = g)
    (p1 : Pt) :
    ∀ (ps : List Pt) (g g3 : Grid), createPathGo cp p1 ps g = (false, g3) → g3 = g := by
  intro ps
  induction ps with
  | nil => intro g g3 h; simpa [createPathGo] using h.symm
  | cons p rest ih =>
    intro g g3 h
    unfold createPathGo at h
    simp only at h
    rcases hres : cp (setCell g p (some '$')) p p1 with ⟨b, g2⟩
    rw [hres] at h
    cases b with
    | true => simp at h
    | false =>
      simp only at h
      have hg2 : g2 = setCell g p (some '$') := hcp _ _ _ _ hres
      have hrestore : setCell g2 p (cellAt g p) = g := by
        rw [hg2, setCell_setCell, setCell_cellAt]
      rw [hrestore] at h
      exact ih g g3 h

/-- Failure atomicity of `create_path`: an unsuccessful call returns the
grid it was given, bit for bit. -/
theorem createPath_false (fuel : Nat) :
    ∀ (g : Grid) (p0 p1 : Pt) (g3 : Grid),
      createPath fuel g p0 p1 = (false, g3) → g3 = g := by
  induction fuel with
  | zero => intro g p0 p1 g3 h; simpa [createPath] using h.symm
  | succ n ih =>
    intro g p0 p1 g3 h
    unfold createPath at h
    by_cases hn : p1 ∈ neighbors p0
    · simp [hn] at h
    · simp only [hn, if_false, if_neg hn] at h
      exact createPathGo_false (createPath n) (fun g p q g2 hh => ih g p q g2 hh) p1 _ g g3 h

/-- 4-connectedness: the two points are one orthogonal step apart. -/
def adj (p q : Pt) : Prop := (p.x - q.x).natAbs + (p.y - q.y).natAbs = 1

instance (p q : Pt) : Decidable (adj p q) := by unfold adj; infer_instance

/-- Commit a list of cells as corridor tiles, in order: the grid after the
success unwinding of `create_path` relative to the grid before the call. -/
def carve (g : Grid) (mid : List Pt) : Grid :=
  mid.foldl (fun h p => setCell h p (some '#')) g

/-- Members of a list after `List.set` are old members or the new value. -/
theorem list_mem_set {l : List α} {n : Nat} {v a : α} (h : a ∈ l.set n v) :
    a ∈ l ∨ a = v := by
  induction l generalizing n with
  | nil => simp [List.set] at h
  | cons b t ih =>
    cases n with
    | zero =>
      rcases List.mem_cons.mp h with h1 | h1
      · right; exact h1
      · left; exact List.mem_cons_of_mem _ h1
    | succ m =>
      rcases List.mem_cons.mp h with h1 | h1
      · left; simp [h1]
      · rcases ih h1 with h2 | h2
        · left; exact List.mem_cons_of_mem _ h2
        · right; exact h2

/-- `List.getD` after a `List.set` at a different index is unchanged. -/
theorem list_getD_set_ne (l : List α) (n m : Nat) (v d : α) (h : n ≠ m) :
    (l.set n v).getD m d = l.getD m d := by
  induction l generalizing n m with
  | nil => rfl
  | cons a t ih =>
    cases n with
    | zero =>
      cases m with
      | zero => exact absurd rfl h
      | succ k => rfl
    | succ n' =>
      cases m with
      | zero => rfl
      | succ k => simpa [List.getD] using ih n' k (fun hh => h (by rw [hh]))

/-- `setCell` keeps the 80 × 20 shape. -/
theorem dimsOK_setCell {g : Grid} (p : Pt) (v : Option Char)
    (h : dimsOK g = true) : dimsOK (setCell g p v) = true := by
  unfold dimsOK at h ⊢
  simp only [Bool.and_eq_true] at h
  rcases h with ⟨hlen, hall⟩
  unfold setCell
  by_cases hb : inBounds p = true
  · simp only [hb, if_true]
    rw [Bool.and_eq_true]
    constructor
    · simpa [List.length_set] using hlen
    · rw [List.all_eq_true] at hall ⊢
      intro col hcol
      by_cases hx : p.x.toNat < g.length
      · rcases list_mem_set hcol with h1 | h1
        · exact hall col h1
        · subst h1
          have hmem : g.getD p.x.toNat [] ∈ g := by
            rw [List.getD_eq_getElem g [] hx]; exact List.getElem_mem hx
          have := hall _ hmem
          simpa [List.length_set] using this
      · rw [list_set_oob _ _ _ (Nat.le_of_not_lt hx)] at hcol
        exact hall col hcol
  · simp only [hb, if_false, Bool.and_eq_true]
    exact ⟨hlen, hall⟩

/-- Coordinates of an in-bounds point, as natural indices. -/
theorem inBounds_toNat {p : Pt} (h : inBounds p = true) :
    p.x.toNat < 80 ∧ p.y.toNat < 20 ∧ 0 ≤ p.x ∧ 0 ≤ p.y := by
  unfold inBounds at h
  simp only [Bool.and_eq_true, decide_eq_true_eq] at h
  omega

/-- Columns of a well-shaped grid have 20 cells. -/
theorem col_length {g : Grid} (hd : dimsOK g = true) {n : Nat} (hn : n < g.length) :
    (g.getD n []).length = 20 := by
  unfold dimsOK at hd
  simp only [Bool.and_eq_true] at hd
  rcases hd with ⟨_, hall⟩
  rw [List.all_eq_true] at hall
  have hmem : g.getD n [] ∈ g := by
    rw [List.getD_eq_getElem g [] hn]; exact List.getElem_mem hn
  simpa using hall _ hmem

/-- Grid length of a well-shaped grid. -/
theorem grid_length {g : Grid} (hd : dimsOK g = true) : g.length = 80 := by
  unfold dimsOK at hd
  simp only [Bool.and_eq_true] at hd
  rcases hd with ⟨hlen, _⟩
  simpa using hlen

/-- Reading the cell just written. -/
theorem cellAt_setCell_same {g : Grid} {p : Pt} (v : Option Char)
    (hd : dimsOK g = true) (hb : inBounds p = true) :
    cellAt (setCell g p v) p = v := by
  obtain ⟨hx, hy, _, _⟩ := inBounds_toNat hb
  have hxg : p.x.toNat < g.length := by rw [grid_length hd]; exact hx
  unfold setCell cellAt
  simp only [hb, if_true]
  rw [list_getD_set_self g p.x.toNat _ [] hxg]
  rw [list_getD_set_self]
  rw [col_length hd hxg]
  exact hy

/-- Reading any other cell after a write. -/
theorem cellAt_setCell_other {g : Grid} {p q : Pt} (v : Option Char)
    (hne : q ≠ p) : cellAt (setCell g p v) q = cellAt g q := by
  unfold setCell cellAt
  by_cases hbp : inBounds p = true
  · by_cases hbq : inBounds q = true
    · simp only [hbp, hbq, if_true]
      obtain ⟨hpx, hpy, hpx0, hpy0⟩ := inBounds_toNat hbp
      obtain ⟨hqx, hqy, hqx0, hqy0⟩ := inBounds_toNat hbq
      by_cases hx : p.x.toNat = q.x.toNat
      · have hxeq : p.x = q.x := by omega
        have hyne : p.y ≠ q.y := by
          intro hyeq
          exact hne (by cases p; cases q; simp_all)
        have hyne' : p.y.toNat ≠ q.y.toNat := by omega
        by_cases hlt : p.x.toNat < g.length
        · rw [← hx, list_getD_set_self g p.x.toNat _ [] hlt,
            list_getD_set_ne _ _ _ _ _ hyne']
        · rw [list_set_oob _ _ _ (Nat.le_of_not_lt hlt)]
      · rw [list_getD_set_ne _ _ _ _ _ hx]
    · simp [hbp, hbq]
  · simp [hbp]

/-- Writes to two distinct cells commute. -/
theorem setCell_comm {p q : Pt} (g : Grid) (v w : Option Char) (hne : p ≠ q) :
    setCell (setCell g p v) q w = setCell (setCell g q w) p v := by
  unfold setCell
  by_cases hbp : inBounds p = true
  · by_cases hbq : inBounds q = true
    · simp only [hbp, hbq, if_true]
      obtain ⟨hpx, hpy, hpx0, hpy0⟩ := inBounds_toNat hbp
      obtain ⟨hqx, hqy, hqx0, hqy0⟩ := inBounds_toNat hbq
      by_cases hx : p.x.toNat = q.x.toNat
      · have hxeq : p.x = q.x := by omega
        have hyne : p.y.toNat ≠ q.y.toNat := by
          have : p.y ≠ q.y := fun hy => hne (by cases p; cases q; simp_all)
          omega
        by_cases hlt : p.x.toNat < g.length
        · rw [← hx, list_set_set,
            list_getD_set_self g p.x.toNat _ [] hlt,
            list_getD_set_self g p.x.toNat _ [] hlt,
            list_set_set, List.set_comm _ _ _ hyne]
        · have hle := Nat.le_of_not_lt hlt
          rw [← hx]
          simp only [list_set_oob _ _ _ hle]
      · rw [list_getD_set_ne _ _ _ _ _ hx, list_getD_set_ne _ _ _ _ _ (fun hh => hx hh.symm),
          List.set_comm _ _ _ hx]
    · simp [hbp, hbq]
  · by_cases hbq : inBounds q = true
    · simp [hbp, hbq]
    · simp [hbp, hbq]

/-- Pushing a write to `p` through a carve that avoids `p`. -/
theorem setCell_carve (mid : List Pt) :
    ∀ (g : Grid) (a b : Option Char) (p : Pt), p ∉ mid →
      setCell (carve (setCell g p a) mid) p b = carve (setCell g p b) mid := by
  induction mid with
  | nil => intro g a b p _; exact setCell_setCell g p a b
  | cons q rest ih =>
    intro g a b p hp
    have hpq : p ≠ q := fun h => hp (h ▸ List.mem_cons_self q rest)
    have hprest : p ∉ rest := fun h => hp (List.mem_cons_of_mem _ h)
    show setCell (carve (setCell (setCell g p a) q (some '#')) rest) p b
        = carve (setCell (setCell g p b) q (some '#')) rest
    rw [setCell_comm g a (some '#') hpq, setCell_comm g b (some '#') hpq]
    exact ih (setCell g q (some '#')) a b p hprest

/-- A cell not on the carved list keeps its value. -/
theorem cellAt_carve_not_mem (mid : List Pt) :
    ∀ (g : Grid) (p : Pt), p ∉ mid → cellAt (carve g mid) p = cellAt g p := by
  induction mid with
  | nil => intro g p _; rfl
  | cons q rest ih =>
    intro g p hp
    have hpq : p ≠ q := fun h => hp (h ▸ List.mem_cons_self q rest)
    have hprest : p ∉ rest := fun h => hp (List.mem_cons_of_mem _ h)
    show cellAt (carve (setCell g q (some '#')) rest) p = cellAt g p
    rw [ih _ p hprest, cellAt_setCell_other _ hpq]

/-- Carving preserves the grid shape. -/
theorem dimsOK_carve (mid : List Pt) :
    ∀ (g : Grid), dimsOK g = true → dimsOK (carve g mid) = true := by
  induction mid with
  | nil => intro g h; exact h
  | cons q rest ih =>
    intro g h
    exact ih _ (dimsOK_setCell q _ h)

/-- Membership through the stable insertion. -/
theorem mem_insertByDist {p1 p a : Pt} (l : List Pt) :
    a ∈ insertByDist p1 p l ↔ a = p ∨ a ∈ l := by
  induction l with
  | nil => simp [insertByDist]
  | cons q qs ih =>
    unfold insertByDist
    by_cases h : dist2 q p1 ≤ dist2 p p1
    · simp only [h, if_true, List.mem_cons, ih]
      tauto
    · simp only [h, if_false, List.mem_cons]

/-- Membership through the stable sort. -/
theorem mem_sortByDist {p1 a : Pt} (l : List Pt) :
    a ∈ sortByDist p1 l ↔ a ∈ l := by
  induction l with
  | nil => simp [sortByDist]
  | cons q qs ih =>
    unfold sortByDist
    rw [mem_insertByDist, ih, List.mem_cons]

/-- The neighbour candidates of `p0` are exactly its 4-adjacent points. -/
theorem adj_of_mem_neighbors {p0 q : Pt} (h : q ∈ neighbors p0) : adj p0 q := by
  unfold neighbors at h
  unfold adj
  rcases List.mem_cons.mp h with h1 | h1
  · subst h1; simp
  rcases List.mem_cons.mp h1 with h2 | h2
  · subst h2; simp
  rcases List.mem_cons.mp h2 with h3 | h3
  · subst h3; simp
  rcases List.mem_cons.mp h3 with h4 | h4
  · subst h4; simp
  · simp at h4

/-- Success of the loop body yields a 4-connected carved path, provided the
recursive call is failure-atomic and itself yields such a path. -/
theorem createPathGo_true (cp : Grid → Pt → Pt → Bool × Grid)
    (hatom : ∀ g p q g2, cp g p q = (false, g2) → g2 = g)
    (hrec : ∀ g p q g2, dimsOK g = true → cp g p q = (true, g2) →
      ∃ mid : List Pt, List.Chain adj p (mid ++ [q]) ∧ mid.Nodup ∧
        (∀ r ∈ mid, inBounds r = true ∧ passable (cellAt g r) = true) ∧
        g2 = carve g mid)
    (p0 p1 : Pt) :
    ∀ (ps : List Pt) (g gf : Grid), dimsOK g = true →
      (∀ p ∈ ps, adj p0 p ∧ inBounds p = true ∧ passable (cellAt g p) = true) →
      createPathGo cp p1 ps g = (true, gf) →
      ∃ mid : List Pt, List.Chain adj p0 (mid ++ [p1]) ∧ mid.Nodup ∧
        (∀ r ∈ mid, inBounds r = true ∧ passable (cellAt g r) = true) ∧
        gf = carve g mid := by
  intro ps
  induction ps with
  | nil => intro g gf _ _ h; simp [createPathGo] at h
  | cons p rest ih =>
    intro g gf hd hps h
    obtain ⟨hadj, hb, hpass⟩ := hps p (List.mem_cons_self p rest)
    unfold createPathGo at h
    simp only at h
    rcases hres : cp (setCell g p (some '$')) p p1 with ⟨bo, g2⟩
    rw [hres] at h
    cases bo with
    | true =>
      have hd1 : dimsOK (setCell g p (some '$')) = true := dimsOK_setCell p _ hd
      obtain ⟨mid1, hchain, hnd, hcells, hg2⟩ := hrec _ p p1 g2 hd1 hres
      have hpnot : p ∉ mid1 := by
        intro hmem
        have := (hcells p hmem).2
        rw [cellAt_setCell_same (some '$') hd hb] at this
        simp [passable] at this
      refine ⟨p :: mid1, ?_, ?_, ?_, ?_⟩
      · exact List.Chain.cons hadj hchain
      · exact List.nodup_cons.mpr ⟨hpnot, hnd⟩
      · intro r hr
        rcases List.mem_cons.mp hr with h1 | h1
        · subst h1; exact ⟨hb, hpass⟩
        · obtain ⟨hrb, hrp⟩ := hcells r h1
          have hrne : r ≠ p := fun hh => hpnot (hh ▸ h1)
          rw [cellAt_setCell_other _ hrne] at hrp
          exact ⟨hrb, hrp⟩
      · have hgf : setCell g2 p (some '#') = gf := congrArg Prod.snd h
        rw [← hgf, hg2, setCell_carve mid1 g (some '$') (some '#') p hpnot]
        rfl
    | false =>
      simp only at h
      have hg2 : g2 = setCell g p (some '$') := hatom _ _ _ _ hres
      have hrestore : setCell g2 p (cellAt g p) = g := by
        rw [hg2, setCell_setCell, setCell_cellAt]
      rw [hrestore] at h
      exact ih g gf hd (fun q hq => hps q (List.mem_cons_of_mem _ hq)) h

/-- Success of `create_path` carves a gapless 4-connected corridor: there
is a duplicate-free list `mid` of cells, each in bounds and passable in
the pre-call grid, such that `p0`, `mid`, `p1` form a chain of orthogonal
steps and the final grid is exactly the pre-call grid with `mid` written
as `'#'` corridor tiles. -/
theorem createPath_true (fuel : Nat) :
    ∀ (g : Grid) (p0 p1 : Pt) (gf : Grid), dimsOK g = true →
      createPath fuel g p0 p1 = (true, gf) →
      ∃ mid : List Pt, List.Chain adj p0 (mid ++ [p1]) ∧ mid.Nodup ∧
        (∀ r ∈ mid, inBounds r = true ∧ passable (cellAt g r) = true) ∧
        gf = carve g mid := by
  induction fuel with
  | zero => intro g p0 p1 gf _ h; simp [createPath] at h
  | succ n ih =>
    intro g p0 p1 gf hd h
    unfold createPath at h
    by_cases hn : p1 ∈ neighbors p0
    · simp only [hn, if_true] at h
      refine ⟨[], ?_, List.nodup_nil, by simp, ?_⟩
      · simpa [List.chain_cons] using adj_of_mem_neighbors hn
      · simp only [Prod.mk.injEq] at h
        exact h.2.symm
    · simp only [hn, if_false] at h
      apply createPathGo_true (createPath n)
        (fun g p q g2 hh => createPath_false n g p q g2 hh)
        (fun g p q g2 hdd hh => ih g p q g2 hdd hh) p0 p1 _ g gf hd ?_ h
      intro p hp
      rw [mem_sortByDist] at hp
      obtain ⟨hmem, hflt⟩ := List.mem_filter.mp hp
      simp only [Bool.and_eq_true] at hflt
      exact ⟨adj_of_mem_neighbors hmem, hflt.1, hflt.2⟩

/-! ## Level generation (`fill_room`, `random_door`, `add_staircase`, `make_level`) -/

/-- The explicit stream of random draws. -/
abbrev Seeds := List Nat

/-- Pull one value off the stream (an exhausted stream yields `0`). -/
def draw : Seeds → Nat × Seeds
  | [] => (0, [])
  | n :: r => (n, r)

/-- `random.randint(lo, hi)` (both ends inclusive), driven by one stream
value: `lo + n % (hi - lo + 1)`, realising every value of `[lo, hi]`. -/
def randint (lo hi : Int) (n : Nat) : Int := lo + (n : Int) % (hi - lo + 1)

/-- The tile `fill_room` writes at offset `(i, j)` into the room: `'-'` on
the top/bottom border rows, `'|'` on the left/right border columns, `'.'`
inside. -/
def tileFor (room : Room) (i j : Nat) : Option Char :=
  if j = 0 ∨ (j : Int) = room.height then some '-'
  else if i = 0 ∨ (i : Int) = room.width then some '|'
  else some '.'

/-- The offsets `(i, j)` visited by `fill_room`'s nested loops, `j` outer
(`range(room.height+1)`), `i` inner (`range(room.width+1)`). -/
def cellsOf (room : Room) : List (Nat × Nat) :=
  (List.range (room.height.toNat + 1)).flatMap fun j =>
    (List.range (room.width.toNat + 1)).map fun i => (i, j)

/-- The check-and-write loop of `fill_room`: abort with `None` as soon as a
footprint cell of the original `level` is occupied, otherwise write the
border/floor tile into the copy `acc`. -/
def fillCells (level : Grid) (room : Room) : List (Nat × Nat) → Grid → Option Grid
  | [], acc => some acc
  | (i, j) :: rest, acc =>
    if cellAt level ⟨room.x + i, room.y + j⟩ ≠ none then none
    else fillCells level room rest
      (setCell acc ⟨room.x + (i : Int), room.y + (j : Int)⟩ (tileFor room i j))

/-- The `MIN_SEP` margin checks of `fill_room`: the columns exactly
`MIN_SEP` left and right of the room over the room's rows, and the rows
exactly `MIN_SEP` above and below over the room's columns, must all be
`Empty` in the original `level`. -/
def marginsOK (level : Grid) (room : Room) : Bool :=
  ((List.range (room.height.toNat + 1)).all fun j =>
    (cellAt level ⟨room.x - MIN_SEP, room.y + j⟩).isNone &&
    (cellAt level ⟨room.x + room.width + MIN_SEP, room.y + j⟩).isNone) &&
  ((List.range (room.width.toNat + 1)).all fun i =>
    (cellAt level ⟨room.x + i, room.y - MIN_SEP⟩).isNone &&
    (cellAt level ⟨room.x + i, room.y + room.height + MIN_SEP⟩).isNone)

/-- `fill_room(level, room)` of the source: returns the level with the room
drawn in, or `none` on any collision or missing separation. -/
def fillRoom (level : Grid) (room : Room) : Option Grid :=
  match fillCells level room (cellsOf room) level with
  | none => none
  | some g => if marginsOK level room then some g else none

/-- One round of the `while True` candidate loop in `make_level`: sample
`x, y, height, width`, reject candidates that leave the map boundary, then
try `fill_room`; retry until fuel runs out. -/
def tryPlace : Nat → Seeds → Grid → Option (Grid × Room × Seeds)
  | 0, _, _ => none
  | fuel + 1, s, level =>
    let (nx, s) := draw s
    let (ny, s) := draw s
    let (nh, s) := draw s
    let (nw, s) := draw s
    let x := randint MIN_SEP X_DIM nx
    let y := randint MIN_SEP Y_DIM ny
    let height := randint 5 8 nh
    let width := randint 5 20 nw
    if x + width + MIN_SEP ≥ X_DIM then tryPlace fuel s level
    else if y + height + MIN_SEP ≥ Y_DIM then tryPlace fuel s level
    else
      let room : Room := ⟨x, y, width, height⟩
      match fillRoom level room with
      | none => tryPlace fuel s level
      | some g => some (g, room, s)

/-- The room-generation `for` loop of `make_level`: place `k` rooms, each
appended to the list in placement order. -/
def placeRooms : Nat → Nat → Seeds → Grid → List Room →
    Option (Grid × List Room × Seeds)
  | 0, _, s, level, rooms => some (level, rooms, s)
  | k + 1, fuel, s, level, rooms =>
    match tryPlace fuel s level with
    | none => none
    | some (g, room, s) => placeRooms k fuel s g (rooms ++ [room])

/-- `random_door(level, room)` of the source: pick a side (`0` left,
`1` bottom, `2` right, `3` top) and a non-corner offset along it. -/
def randomDoor (room : Room) (s : Seeds) : Pt × Seeds :=
  let (ns, s) := draw s
  let side := randint 0 3 ns
  if side = 0 ∨ side = 2 then
    let (nd, s) := draw s
    let dy := randint 1 (room.height - 1) nd
    let dx : Int := if side = 2 then room.width else 0
    (⟨room.x + dx, room.y + dy⟩, s)
  else
    let (nd, s) := draw s
    let dx := randint 1 (room.width - 1) nd
    let dy : Int := if side = 1 then room.height else 0
    (⟨room.x + dx, room.y + dy⟩, s)

/-- The fuel handed to every `create_path` call: one more than the number
of grid cells, which the marker-based recursion can never exhaust. -/
def pathFuel : Nat := 80 * 20 + 1

/-- The door/corridor loop of `make_level`: for each adjacent pair of
rooms in placement order, pick a random door on each, write both as
`'+'`, and run `create_path` between them (a failed connection is
silently accepted, as in the source). -/
def connectRooms : Seeds → Grid → List Room → Grid × Seeds
  | s, level, r0 :: r1 :: rest =>
    let (door0, s) := randomDoor r0 s
    let (door1, s) := randomDoor r1 s
    let level := setCell level door0 (some '+')
    let level := setCell level door1 (some '+')
    let (_, level) := createPath pathFuel level door0 door1
    connectRooms s level (r1 :: rest)
  | s, level, _ => (level, s)

/-- The interior points of a room in the order `add_staircase` builds
them: `j` from `1` to `height-1` outer, `i` from `1` to `width-1` inner. -/
def interiorPoints (room : Room) : List Pt :=
  (List.range (room.height.toNat - 1)).flatMap fun j =>
    (List.range (room.width.toNat - 1)).map fun i =>
      ⟨room.x + (i + 1 : Nat), room.y + (j + 1 : Nat)⟩

/-- `add_staircase(level, room, staircase)` of the source:
`random.choice` over the interior points, modelled by indexing the list
with a stream value. -/
def addStaircase (level : Grid) (room : Room) (c : Char) (s : Seeds) :
    Grid × Seeds :=
  let pts := interiorPoints room
  let (n, s) := draw s
  let p := pts.getD (n % pts.length) ⟨0, 0⟩
  (setCell level p (some c), s)

/-- Modelled from `random.sample(rooms, 2)` of the Python standard
library: two distinct indices into the room list, both reachable for
suitable stream values. -/
def sampleTwo (len : Nat) (n1 n2 : Nat) : Nat × Nat :=
  let i := n1 % len
  (i, (i + (1 + n2 % (len - 1))) % len)

/-- `make_level()` of the source: empty grid, `randint(3,5)` rooms placed
by rejection sampling, adjacent rooms connected by doors and corridors,
then `'<'` and `'>'` staircases in two distinct rooms.  Returns the grid
together with the placed rooms (the source keeps `rooms` in a local);
`none` only when the placement fuel is exhausted. -/
def makeLevel (fuel : Nat) (s0 : Seeds) : Option (Grid × List Room) :=
  let (nr, s) := draw s0
  let count := randint 3 5 nr
  match placeRooms count.toNat fuel s emptyGrid [] with
  | none => none
  | some (level, rooms, s) =>
    let (level, s) := connectRooms s level rooms
    let (n1, s) := draw s
    let (n2, s) := draw s
    let (iUp, iDown) := sampleTwo rooms.length n1 n2
    let up := rooms.getD iUp ⟨0, 0, 0, 0⟩
    let down := rooms.getD iDown ⟨0, 0, 0, 0⟩
    let (level, s) := addStaircase level up '<' s
    let (level, _) := addStaircase level down '>' s
    some (level, rooms)

/-! ## The movement loop of `__main__` -/

/-- Python list indexing: in-range indices and negative wrap-around give
the element, anything else is an `IndexError` (`none`). -/
def pyIdx (len : Nat) (i : Int) : Option Nat :=
  if 0 ≤ i ∧ i < (len : Int) then some i.toNat
  else if -(len : Int) ≤ i ∧ i < 0 then some ((len : Int) + i).toNat
  else none

/-- `l[i]` with Python semantics. -/
def pyGet (l : List α) (i : Int) : Option α :=
  (pyIdx l.length i).bind fun n => l.get? n

/-- `level[p.x][p.y]` with Python semantics: `none` is an `IndexError`,
`some t` the tile read (which may itself be the `Empty` tile `none`). -/
def readPy (g : Grid) (p : Pt) : Option (Option Char) :=
  (pyGet g p.x).bind fun col => pyGet col p.y

/-- `find_staircase`'s scan order: rows (`j`) outer, columns (`i`) inner. -/
def scanOrder : List Pt :=
  (List.range 20).flatMap fun j => (List.range 80).map fun i => ⟨(i : Int), (j : Int)⟩

/-- `find_staircase(level, staircase)` of the source: first matching point
in row-major order, `none` if the staircase is absent. -/
def findStaircase (level : Grid) (c : Char) : Option Pt :=
  scanOrder.find? fun p => decide (cellAt level p = some c)

/-- The movement keys: `h` west, `j` south, `k` north, `l` east. -/
def keyDelta (key : Char) : Option Pt :=
  if key = 'h' then some ⟨-1, 0⟩
  else if key = 'j' then some ⟨0, 1⟩
  else if key = 'k' then some ⟨0, -1⟩
  else if key = 'l' then some ⟨1, 0⟩
  else none

/-- The `Dungeon` state of the `__main__` loop: the list of generated
levels, the current level index, and the agent position. -/
structure DState where
  levels : List Grid
  current : Nat
  pos : Pt
deriving DecidableEq, Repr

/-- One iteration of the `__main__` movement loop on a key press.
`fresh` stands for the level `make_level()` would generate if a new one is
needed.  `Except.error ()` marks the runs on which the source raises
(an `IndexError` reading past the high edge) or sets `pos` to `None`
(a missing staircase, which crashes on the next iteration). -/
def move (fresh : Grid) (d : DState) (key : Char) : Except Unit DState :=
  match keyDelta key with
  | none => Except.ok d
  | some dl =>
    let level := d.levels.getD d.current []
    let np : Pt := ⟨d.pos.x + dl.x, d.pos.y + dl.y⟩
    match readPy level np with
    | none => Except.error ()
    | some t =>
      if t = some '>' then
        let levels := if d.current = d.levels.length - 1
          then d.levels ++ [fresh] else d.levels
        let cur := d.current + 1
        match findStaircase (levels.getD cur []) '<' with
        | some p => Except.ok ⟨levels, cur, p⟩
        | none => Except.error ()
      else if t = some '<' then
        if 0 < d.current then
          match findStaircase (d.levels.getD (d.current - 1) []) '>' with
          | some p => Except.ok ⟨d.levels, d.current - 1, p⟩
          | none => Except.error ()
        else Except.ok ⟨d.levels, d.current, np⟩
      else if t = some '.' ∨ t = some '+' ∨ t = some '#' then
        Except.ok ⟨d.levels, d.current, np⟩
      else Except.ok ⟨d.levels, d.current, d.pos⟩

/-- Tiles the agent may stand on: floor, door, corridor, staircases. -/
def walkable (t : Option Char) : Bool :=
  t == some '.' || t == some '+' || t == some '#' || t == some '<' || t == some '>'

/-- A well-formed level of the navigator: correctly shaped, with an up and
a down staircase present. -/
def LevelOK (g : Grid) : Prop :=
  dimsOK g = true ∧ (findStaircase g '<').isSome = true ∧
    (findStaircase g '>').isSome = true

instance (g : Grid) : Decidable (LevelOK g) := by unfold LevelOK; infer_instance

/-- The documented dungeon-state invariant (§3 of the design): at least
one level, all levels well formed, a valid current index, and the agent
in bounds on a walkable tile of the current level. -/
def StateOK (d : DState) : Prop :=
  d.levels ≠ [] ∧ (∀ g ∈ d.levels, LevelOK g) ∧ d.current < d.levels.length ∧
    inBounds d.pos = true ∧
    walkable (cellAt (d.levels.getD d.current []) d.pos) = true

instance (d : DState) : Decidable (StateOK d) := by
  unfold StateOK
  have : Decidable (∀ g ∈ d.levels, LevelOK g) := List.decidableBAll _ _
  exact instDecidableAnd

/-! ## Helper lemmas for the movement loop -/

/-- An in-range default read is a member of the list. -/
theorem list_getD_mem (l : List α) (i : Nat) (d : α) (h : i < l.length) :
    l.getD i d ∈ l := by
  rw [List.getD_eq_getElem l d h]
  exact List.getElem_mem h

/-- Reading the element just appended. -/
theorem list_getD_concat (l : List α) (a d : α) : (l ++ [a]).getD l.length d = a := by
  induction l with
  | nil => rfl
  | cons b t ih => simp only [List.cons_append, List.length_cons, List.getD]; exact ih

/-- Appending does not change reads below the old length. -/
theorem list_getD_append (l m : List α) (i : Nat) (d : α) (h : i < l.length) :
    (l ++ m).getD i d = l.getD i d := by
  induction l generalizing i with
  | nil => exact absurd h (by simp)
  | cons b t ih =>
    cases i with
    | zero => rfl
    | succ n => simpa [List.getD] using ih n (Nat.lt_of_succ_lt_succ h)

/-- In-range `List.get?` in terms of `List.getD`. -/
theorem list_get?_eq_getD (l : List α) (i : Nat) (d : α) (h : i < l.length) :
    l.get? i = some (l.getD i d) := by
  induction l generalizing i with
  | nil => exact absurd h (by simp)
  | cons b t ih =>
    cases i with
    | zero => rfl
    | succ n => simpa [List.getD] using ih n (Nat.lt_of_succ_lt_succ h)

/-- On an in-bounds point of a well-shaped grid, the Python read succeeds
and agrees with `cellAt`. -/
theorem readPy_eq {g : Grid} {p : Pt} (hd : dimsOK g = true)
    (hb : inBounds p = true) : readPy g p = some (cellAt g p) := by
  obtain ⟨hx, hy, hx0, hy0⟩ := inBounds_toNat hb
  have hlen : g.length = 80 := grid_length hd
  have hxl : p.x.toNat < g.length := by omega
  have hcol : (g.getD p.x.toNat []).length = 20 := col_length hd hxl
  unfold readPy pyGet pyIdx
  have hix : (0 ≤ p.x ∧ p.x < (g.length : Int)) := by
    constructor
    · exact hx0
    · rw [hlen]; exact_mod_cast (by omega : p.x < 80)
  rw [if_pos hix]
  simp only [Option.bind_some, Option.some_bind]
  rw [list_get?_eq_getD g p.x.toNat [] hxl]
  simp only [Option.some_bind]
  have hiy : (0 ≤ p.y ∧ p.y < ((g.getD p.x.toNat []).length : Int)) := by
    constructor
    · exact hy0
    · rw [hcol]; exact_mod_cast (by omega : p.y < 20)
  rw [if_pos hiy]
  simp only [Option.some_bind]
  rw [list_get?_eq_getD _ p.y.toNat none (by omega)]
  unfold cellAt
  rw [if_pos hb]

/-- A successful read means the point was in bounds. -/
theorem cellAt_some_inBounds {g : Grid} {p : Pt} {c : Char}
    (h : cellAt g p = some c) : inBounds p = true := by
  unfold cellAt at h
  by_cases hb : inBounds p = true
  · exact hb
  · rw [if_neg hb] at h; exact absurd h (by simp)

/-- What `find_staircase` returns: an in-bounds point carrying the
requested staircase tile. -/
theorem findStaircase_spec {g : Grid} {c : Char} {p : Pt}
    (h : findStaircase g c = some p) :
    inBounds p = true ∧ cellAt g p = some c := by
  unfold findStaircase at h
  have hc : cellAt g p = some c := by simpa using List.find?_some h
  exact ⟨cellAt_some_inBounds hc, hc⟩

/-- A state satisfying the invariant has a well-formed current level. -/
theorem StateOK_level {d : DState} (h : StateOK d) :
    LevelOK (d.levels.getD d.current []) := by
  obtain ⟨-, hall, hlt, -, -⟩ := h
  exact hall _ (list_getD_mem _ _ _ hlt)

/-! ## C5 and C6: `create_path` failure atomicity and success validity -/

/-- C5.  Path-search failure atomicity: whenever a top-level call to
`create_path` returns failure, the resulting grid is identical, cell for
cell, to the grid passed in — no partial corridor and no transient marker
remains. -/
theorem claim_C5_failure_atomic (fuel : Nat) (g : Grid) (p0 p1 : Pt) (g3 : Grid)
    (h : createPath fuel g p0 p1 = (false, g3)) : g3 = g :=
  createPath_false fuel g p0 p1 g3 h

/-- The walled-off scenario for C5: the start is enclosed by wall tiles,
the goal unreachable. -/
def gWall : Grid :=
  setCell (setCell (setCell (setCell emptyGrid ⟨4, 5⟩ (some '-')) ⟨6, 5⟩ (some '-'))
    ⟨5, 4⟩ (some '-')) ⟨5, 6⟩ (some '-')

/-- Witness for C5: a concrete failing search leaves the grid unchanged. -/
theorem claim_C5_witness : (createPath pathFuel gWall ⟨5, 5⟩ ⟨10, 10⟩).2 = gWall := by
  have h1 : (createPath pathFuel gWall ⟨5, 5⟩ ⟨10, 10⟩).1 = false := by decide
  exact claim_C5_failure_atomic pathFuel gWall ⟨5, 5⟩ ⟨10, 10⟩ _ (by rw [← h1])

/-- C6.  Path-search success validity: when a top-level call to
`create_path` succeeds, there is a duplicate-free list `mid` of cells —
each in bounds and passable (`Empty` or corridor) in the pre-call grid —
such that start, `mid`, goal form a gapless 4-connected chain, and the
final grid is exactly the pre-call grid with every visited cell of `mid`
committed as a `Corridor` tile (so no transient marker survives). -/
theorem claim_C6_success_path (fuel : Nat) (g : Grid) (p0 p1 : Pt) (gf : Grid)
    (hd : dimsOK g = true) (h : createPath fuel g p0 p1 = (true, gf)) :
    ∃ mid : List Pt, List.Chain adj p0 (mid ++ [p1]) ∧ mid.Nodup ∧
      (∀ r ∈ mid, inBounds r = true ∧ passable (cellAt g r) = true) ∧
      gf = carve g mid :=
  createPath_true fuel g p0 p1 gf hd h

/-- Witness for C6: a concrete successful search on the empty grid yields
a carved 4-connected corridor from start to goal. -/
theorem claim_C6_witness :
    ∃ mid : List Pt, List.Chain adj ⟨5, 5⟩ (mid ++ [⟨15, 5⟩]) ∧ mid.Nodup ∧
      (∀ r ∈ mid, inBounds r = true ∧ passable (cellAt emptyGrid r) = true) ∧
      (createPath pathFuel emptyGrid ⟨5, 5⟩ ⟨15, 5⟩).2 = carve emptyGrid mid := by
  have h1 : (createPath pathFuel emptyGrid ⟨5, 5⟩ ⟨15, 5⟩).1 = true := by decide
  exact claim_C6_success_path pathFuel emptyGrid ⟨5, 5⟩ ⟨15, 5⟩ _ (by decide)
    (by rw [← h1])

/-! ## C1, C2, C3, C7: the movement state machine -/

/-- The concrete level used to exhibit the boundary behaviour of the
movement loop: staircases at `(3,3)` and `(5,3)`, corridor tiles hugging
the west and east edges of row 5, and a floor tile at `(4,3)`. -/
def edgeGrid : Grid :=
  setCell (setCell (setCell (setCell (setCell emptyGrid
    ⟨3, 3⟩ (some '<')) ⟨5, 3⟩ (some '>')) ⟨0, 5⟩ (some '#')) ⟨79, 5⟩ (some '#'))
    ⟨4, 3⟩ (some '.')

/-- C1 as stated is false: from the state-invariant-satisfying state with
the agent on the corridor tile `(0,5)`, the west move wraps the Python
read around to column 79, finds a corridor tile there, and moves the agent
to `(-1,5)` — a position outside the grid. -/
theorem claim_C1_counterexample :
    StateOK ⟨[edgeGrid], 0, ⟨0, 5⟩⟩ ∧
    move edgeGrid ⟨[edgeGrid], 0, ⟨0, 5⟩⟩ 'h' = Except.ok ⟨[edgeGrid], 0, ⟨-1, 5⟩⟩ ∧
    inBounds (⟨-1, 5⟩ : Pt) = false :=
  ⟨by decide, rfl, by decide⟩

/-- C1 amended: movement safety holds for every move whose candidate point
lies inside the grid.  From any state satisfying the dungeon invariant, if
the move returns a state, its position is in bounds and on a walkable
(floor, door, corridor or staircase) tile of its current level. -/
theorem claim_C1_amended (fresh : Grid) (d : DState) (key : Char) (dl : Pt)
    (d' : DState) (hok : StateOK d)
    (hdl : keyDelta key = some dl)
    (hnp : inBounds ⟨d.pos.x + dl.x, d.pos.y + dl.y⟩ = true)
    (hmv : move fresh d key = Except.ok d') :
    inBounds d'.pos = true ∧
    walkable (cellAt (d'.levels.getD d'.current []) d'.pos) = true := by
  obtain ⟨hne, hall, hlt, hpos, hwalk⟩ := hok
  obtain ⟨hdim, -, -⟩ := StateOK_level ⟨hne, hall, hlt, hpos, hwalk⟩
  unfold move at hmv
  rw [hdl] at hmv
  simp only at hmv
  rw [readPy_eq hdim hnp] at hmv
  simp only at hmv
  set level := d.levels.getD d.current [] with hlevel
  set np : Pt := ⟨d.pos.x + dl.x, d.pos.y + dl.y⟩ with hnpdef
  by_cases hgt : cellAt level np = some '>'
  · rw [if_pos hgt] at hmv
    by_cases hlast : d.current = d.levels.length - 1
    · simp only [hlast, eq_self_iff_true, if_true] at hmv
      have hgetd : (d.levels ++ [fresh]).getD (d.levels.length - 1 + 1) [] = fresh := by
        have hlen1 : 1 ≤ d.levels.length := List.length_pos.mpr hne
        have heq : d.levels.length - 1 + 1 = d.levels.length := by omega
        rw [heq, list_getD_concat]
      rw [hgetd] at hmv
      rcases hfs : findStaircase fresh '<' with _ | p
      · rw [hfs] at hmv; exact absurd hmv (by simp)
      · rw [hfs] at hmv
        obtain ⟨hpb, hpc⟩ := findStaircase_spec hfs
        have hd' : d' = ⟨d.levels ++ [fresh], d.levels.length - 1 + 1, p⟩ := by
          injection hmv with h1; exact h1.symm
        rw [hd']
        simp only
        rw [hgetd]
        exact ⟨hpb, by rw [hpc]; rfl⟩
    · rw [if_neg hlast] at hmv
      have hlt' : d.current + 1 < d.levels.length := by omega
      rcases hfs : findStaircase (d.levels.getD (d.current + 1) []) '<' with _ | p
      · rw [hfs] at hmv; exact absurd hmv (by simp)
      · rw [hfs] at hmv
        obtain ⟨hpb, hpc⟩ := findStaircase_spec hfs
        have hd' : d' = ⟨d.levels, d.current + 1, p⟩ := by
          injection hmv with h1; exact h1.symm
        rw [hd']
        exact ⟨hpb, by simp only; rw [hpc]; rfl⟩
  · rw [if_neg hgt] at hmv
    by_cases hup : cellAt level np = some '<'
    · rw [if_pos hup] at hmv
      by_cases hcur : 0 < d.current
      · rw [if_pos hcur] at hmv
        rcases hfs : findStaircase (d.levels.getD (d.current - 1) []) '>' with _ | p
        · rw [hfs] at hmv; exact absurd hmv (by simp)
        · rw [hfs] at hmv
          obtain ⟨hpb, hpc⟩ := findStaircase_spec hfs
          have hd' : d' = ⟨d.levels, d.current - 1, p⟩ := by
            injection hmv with h1; exact h1.symm
          rw [hd']
          exact ⟨hpb, by simp only; rw [hpc]; rfl⟩
      · rw [if_neg hcur] at hmv
        have hd' : d' = ⟨d.levels, d.current, np⟩ := by
          injection hmv with h1; exact h1.symm
        rw [hd']
        refine ⟨hnp, ?_⟩
        simp only
        rw [← hlevel, hup]
        rfl
    · rw [if_neg hup] at hmv
      by_cases hflr : cellAt level np = some '.' ∨ cellAt level np = some '+' ∨
          cellAt level np = some '#'
      · rw [if_pos hflr] at hmv
        have hd' : d' = ⟨d.levels, d.current, np⟩ := by
          injection hmv with h1; exact h1.symm
        rw [hd']
        refine ⟨hnp, ?_⟩
        simp only
        rw [← hlevel]
        rcases hflr with h1 | h1 | h1 <;> rw [h1] <;> rfl
      · rw [if_neg hflr] at hmv
        have hd' : d' = ⟨d.levels, d.current, d.pos⟩ := by
          injection hmv with h1; exact h1.symm
        rw [hd']
        exact ⟨hpos, by simp only; rw [← hlevel]; exact hwalk⟩

/-- Witness for the amended C1: a blocked eastward step from the entrance
staircase stays in place, in bounds, on a walkable tile. -/
theorem claim_C1_witness :
    inBounds (⟨3, 3⟩ : Pt) = true ∧
    walkable (cellAt (([edgeGrid] : List Grid).getD 0 []) ⟨3, 3⟩) = true :=
  claim_C1_amended edgeGrid ⟨[edgeGrid], 0, ⟨3, 3⟩⟩ 'k' ⟨0, -1⟩
    ⟨[edgeGrid], 0, ⟨3, 3⟩⟩ (by decide) (by decide) (by decide) rfl

/-- C2 as stated is false: from the state with the agent on the floor tile
`(4,3)` next to the entrance staircase at level 0, stepping onto the
`StairsUp` tile leaves the level index unchanged but MOVES the agent onto
the staircase tile — the `elif` chain of the source never resets `newpos`
in the `current == 0` case, and `pos = newpos` runs. -/
theorem claim_C2_counterexample :
    StateOK ⟨[edgeGrid], 0, ⟨4, 3⟩⟩ ∧
    move edgeGrid ⟨[edgeGrid], 0, ⟨4, 3⟩⟩ 'h' = Except.ok ⟨[edgeGrid], 0, ⟨3, 3⟩⟩ ∧
    (⟨3, 3⟩ : Pt) ≠ (⟨4, 3⟩ : Pt) :=
  ⟨by decide, rfl, by decide⟩

/-- C2 amended: at level 0 a move whose candidate tile is `StairsUp`
leaves the level list and the level index unchanged, and the agent
position becomes the candidate staircase tile (not the old position). -/
theorem claim_C2_amended (fresh : Grid) (d : DState) (key : Char) (dl : Pt)
    (hdl : keyDelta key = some dl) (hcur : d.current = 0)
    (hread : readPy (d.levels.getD d.current [])
      ⟨d.pos.x + dl.x, d.pos.y + dl.y⟩ = some (some '<')) :
    move fresh d key = Except.ok ⟨d.levels, 0, ⟨d.pos.x + dl.x, d.pos.y + dl.y⟩⟩ := by
  unfold move
  rw [hdl]
  simp only
  rw [hread]
  simp only
  rw [if_neg (by decide : ¬(some '<' = some '>')), if_true,
    if_neg (by omega : ¬(0 < d.current)), hcur]

/-- Witness for the amended C2: the concrete ascend-at-entrance move lands
on the staircase tile with the level index still 0. -/
theorem claim_C2_witness :
    move edgeGrid ⟨[edgeGrid], 0, ⟨4, 3⟩⟩ 'h' = Except.ok ⟨[edgeGrid], 0, ⟨3, 3⟩⟩ :=
  claim_C2_amended edgeGrid ⟨[edgeGrid], 0, ⟨4, 3⟩⟩ 'h' ⟨-1, 0⟩ rfl rfl (by decide)

/-- C3 as stated is false: from the state-invariant-satisfying state with
the agent on the corridor tile `(79,5)`, the east move computes candidate
`(80,5)` and the source's `level[newpos.x][newpos.y]` raises `IndexError`
— the bounds failure is not degraded to a no-op. -/
theorem claim_C3_counterexample :
    StateOK ⟨[edgeGrid], 0, ⟨79, 5⟩⟩ ∧
    move edgeGrid ⟨[edgeGrid], 0, ⟨79, 5⟩⟩ 'l' = Except.error () :=
  ⟨by decide, rfl⟩

/-- C3 amended: for every move whose candidate point lies inside the grid,
the move computation never fails, and when the candidate tile is a wall or
`Empty` the state (position and level index) is returned unchanged.  (When
the candidate leaves the grid on the high side the source raises
`IndexError`; past the low side Python's negative indexing reads the
opposite edge of the grid instead of blocking.) -/
theorem claim_C3_amended (fresh : Grid) (d : DState) (key : Char) (dl : Pt)
    (hok : StateOK d) (hfresh : LevelOK fresh)
    (hdl : keyDelta key = some dl)
    (hnp : inBounds ⟨d.pos.x + dl.x, d.pos.y + dl.y⟩ = true) :
    ∃ d', move fresh d key = Except.ok d' ∧
      (walkable (cellAt (d.levels.getD d.current [])
        ⟨d.pos.x + dl.x, d.pos.y + dl.y⟩) = false → d' = d) := by
  obtain ⟨hne, hall, hlt, hpos, hwalk⟩ := hok
  obtain ⟨hdim, -, -⟩ := StateOK_level ⟨hne, hall, hlt, hpos, hwalk⟩
  unfold move
  rw [hdl]
  simp only
  rw [readPy_eq hdim hnp]
  simp only
  set level := d.levels.getD d.current [] with hlevel
  set np : Pt := ⟨d.pos.x + dl.x, d.pos.y + dl.y⟩ with hnpdef
  by_cases hgt : cellAt level np = some '>'
  · rw [if_pos hgt]
    by_cases hlast : d.current = d.levels.length - 1
    · rw [if_pos hlast]
      have hgetd : (d.levels ++ [fresh]).getD (d.current + 1) [] = fresh := by
        have hlen1 : 1 ≤ d.levels.length := List.length_pos.mpr hne
        have heq : d.current + 1 = d.levels.length := by omega
        rw [heq, list_getD_concat]
      rw [hgetd]
      obtain ⟨-, hupf, -⟩ := hfresh
      rcases hfs : findStaircase fresh '<' with _ | p
      · rw [hfs] at hupf
        exact absurd hupf (by simp)
      · exact ⟨_, rfl, fun hw => absurd hw (by rw [hgt]; decide)⟩
    · rw [if_neg hlast]
      have hlt' : d.current + 1 < d.levels.length := by omega
      obtain ⟨-, hup, -⟩ := hall _ (list_getD_mem d.levels (d.current + 1) [] hlt')
      rcases hfs : findStaircase (d.levels.getD (d.current + 1) []) '<' with _ | p
      · rw [hfs] at hup; exact absurd hup (by simp)
      · exact ⟨_, rfl, fun hw => absurd hw (by rw [hgt]; decide)⟩
  · rw [if_neg hgt]
    by_cases hup : cellAt level np = some '<'
    · rw [if_pos hup]
      by_cases hcur : 0 < d.current
      · rw [if_pos hcur]
        have hlt' : d.current - 1 < d.levels.length := by omega
        obtain ⟨-, -, hdn⟩ := hall _ (list_getD_mem d.levels (d.current - 1) [] hlt')
        rcases hfs : findStaircase (d.levels.getD (d.current - 1) []) '>' with _ | p
        · rw [hfs] at hdn; exact absurd hdn (by simp)
        · exact ⟨_, rfl, fun hw => absurd hw (by rw [hup]; decide)⟩
      · rw [if_neg hcur]
        exact ⟨_, rfl, fun hw => absurd hw (by rw [hup]; decide)⟩
    · rw [if_neg hup]
      by_cases hflr : cellAt level np = some '.' ∨ cellAt level np = some '+' ∨
          cellAt level np = some '#'
      · rw [if_pos hflr]
        refine ⟨_, rfl, fun hw => ?_⟩
        rcases hflr with h1 | h1 | h1 <;> rw [h1] at hw <;> exact absurd hw (by decide)
      · rw [if_neg hflr]
        exact ⟨d, rfl, fun _ => rfl⟩

/-- Witness for the amended C3: a concrete blocked move (south into an
`Empty` tile) succeeds and leaves the state unchanged. -/
theorem claim_C3_witness :
    ∃ d', move edgeGrid ⟨[edgeGrid], 0, ⟨4, 3⟩⟩ 'j' = Except.ok d' ∧
      (walkable (cellAt (([edgeGrid] : List Grid).getD 0 []) ⟨4, 4⟩) = false →
        d' = ⟨[edgeGrid], 0, ⟨4, 3⟩⟩) :=
  claim_C3_amended edgeGrid ⟨[edgeGrid], 0, ⟨4, 3⟩⟩ 'j' ⟨0, 1⟩
    (by decide) (by decide) rfl (by decide)

/-- C7.  Descend transition: when the candidate tile is `StairsDown` and
the current level is the last existing one, exactly one new level is
appended, the index is incremented, and the agent position becomes the
`StairsUp` tile of the newly current level (not the candidate point). -/
theorem claim_C7_descend (fresh : Grid) (d : DState) (key : Char) (dl : Pt) (p : Pt)
    (hdl : keyDelta key = some dl)
    (hne : d.levels ≠ [])
    (hlast : d.current = d.levels.length - 1)
    (hread : readPy (d.levels.getD d.current [])
      ⟨d.pos.x + dl.x, d.pos.y + dl.y⟩ = some (some '>'))
    (hfind : findStaircase fresh '<' = some p) :
    move fresh d key = Except.ok ⟨d.levels ++ [fresh], d.current + 1, p⟩ ∧
    (d.levels ++ [fresh]).getD (d.current + 1) [] = fresh ∧
    cellAt fresh p = some '<' := by
  have hgetd : (d.levels ++ [fresh]).getD (d.current + 1) [] = fresh := by
    have hlen1 : 1 ≤ d.levels.length := List.length_pos.mpr hne
    have heq : d.current + 1 = d.levels.length := by omega
    rw [heq, list_getD_concat]
  refine ⟨?_, hgetd, (findStaircase_spec hfind).2⟩
  unfold move
  rw [hdl]
  simp only
  rw [hread]
  simp only
  rw [if_true, if_pos hlast, hgetd, hfind]

/-- Witness for C7: a concrete descend from the only level appends one
fresh level, moves to index 1, and lands on the fresh level's `StairsUp`. -/
theorem claim_C7_witness :
    move edgeGrid ⟨[edgeGrid], 0, ⟨5, 4⟩⟩ 'k'
      = Except.ok ⟨[edgeGrid, edgeGrid], 1, ⟨3, 3⟩⟩ ∧
    (([edgeGrid] : List Grid) ++ [edgeGrid]).getD 1 [] = edgeGrid ∧
    cellAt edgeGrid ⟨3, 3⟩ = some '<' :=
  claim_C7_descend edgeGrid ⟨[edgeGrid], 0, ⟨5, 4⟩⟩ 'k' ⟨0, -1⟩ ⟨3, 3⟩ rfl
    (List.cons_ne_nil _ _) rfl (by decide) (by decide)

/-! ## Room geometry -/

/-- The (closed) bounding footprint of a room: border and interior,
columns `x..x+width` and rows `y..y+height`. -/
def inFp (r : Room) (p : Pt) : Prop :=
  r.x ≤ p.x ∧ p.x ≤ r.x + r.width ∧ r.y ≤ p.y ∧ p.y ≤ r.y + r.height

instance (r : Room) (p : Pt) : Decidable (inFp r p) := by unfold inFp; infer_instance

/-- The footprint extended by the `MIN_SEP` margin on all four sides. -/
def inExtFp (r : Room) (p : Pt) : Prop :=
  r.x - MIN_SEP ≤ p.x ∧ p.x ≤ r.x + r.width + MIN_SEP ∧
  r.y - MIN_SEP ≤ p.y ∧ p.y ≤ r.y + r.height + MIN_SEP

instance (r : Room) (p : Pt) : Decidable (inExtFp r p) := by
  unfold inExtFp; infer_instance

/-- The strict interior of a room (the floor area excluding the border). -/
def inInterior (r : Room) (p : Pt) : Prop :=
  r.x + 1 ≤ p.x ∧ p.x ≤ r.x + r.width - 1 ∧ r.y + 1 ≤ p.y ∧ p.y ≤ r.y + r.height - 1

instance (r : Room) (p : Pt) : Decidable (inInterior r p) := by
  unfold inInterior; infer_instance

/-- The size and boundary constraints every room placed by `make_level`
satisfies (the claim's bounds invariant). -/
def roomOK (r : Room) : Prop :=
  MIN_SEP ≤ r.x ∧ MIN_SEP ≤ r.y ∧ 5 ≤ r.width ∧ r.width ≤ 20 ∧
  5 ≤ r.height ∧ r.height ≤ 8 ∧
  r.x + r.width + MIN_SEP < X_DIM ∧ r.y + r.height + MIN_SEP < Y_DIM

instance (r : Room) : Decidable (roomOK r) := by unfold roomOK; infer_instance

/-- The rooms' row ranges intersect. -/
def rowsMeet (a b : Room) : Prop := a.y ≤ b.y + b.height ∧ b.y ≤ a.y + a.height

/-- The rooms' column ranges intersect. -/
def colsMeet (a b : Room) : Prop := a.x ≤ b.x + b.width ∧ b.x ≤ a.x + a.width

/-- The separation `fill_room`'s checks actually enforce between two
rooms: disjoint footprints, and a gap of more than `MIN_SEP` columns
(rows) whenever the row (column) ranges intersect.  Corner-diagonal
proximity is NOT enforced. -/
def sep (a b : Room) : Prop :=
  (∀ p : Pt, ¬(inFp a p ∧ inFp b p)) ∧
  (rowsMeet a b → a.x + a.width + MIN_SEP < b.x ∨ b.x + b.width + MIN_SEP < a.x) ∧
  (colsMeet a b → a.y + a.height + MIN_SEP < b.y ∨ b.y + b.height + MIN_SEP < a.y)

/-- A committed room tile: wall or floor. -/
def roomTile (t : Option Char) : Prop :=
  t = some '-' ∨ t = some '|' ∨ t = some '.'

/-- `sep` is symmetric. -/
theorem sep_symm {a b : Room} (h : sep a b) : sep b a := by
  obtain ⟨hd, hr, hc⟩ := h
  refine ⟨fun p hp => hd p ⟨hp.2, hp.1⟩, fun hm => ?_, fun hm => ?_⟩
  · rcases hr ⟨hm.2, hm.1⟩ with h1 | h1
    · exact Or.inr h1
    · exact Or.inl h1
  · rcases hc ⟨hm.2, hm.1⟩ with h1 | h1
    · exact Or.inr h1
    · exact Or.inl h1

/-- Footprint points of a well-placed room are in the grid. -/
theorem roomOK_fp_inBounds {r : Room} {p : Pt} (hr : roomOK r) (hp : inFp r p) :
    inBounds p = true := by
  obtain ⟨h1, h2, h3, h4, h5, h6, h7, h8⟩ := hr
  obtain ⟨k1, k2, k3, k4⟩ := hp
  unfold MIN_SEP at h1 h2 h7 h8
  unfold X_DIM at h7
  unfold Y_DIM at h8
  unfold inBounds
  simp only [Bool.and_eq_true, decide_eq_true_eq]
  refine ⟨⟨⟨?_, ?_⟩, ?_⟩, ?_⟩ <;> omega

/-- The interior is part of the footprint. -/
theorem inInterior_inFp {r : Room} {p : Pt} (h : inInterior r p) : inFp r p := by
  obtain ⟨h1, h2, h3, h4⟩ := h
  exact ⟨by omega, by omega, by omega, by omega⟩

/-- `randint lo hi n` lands in `[lo, hi]`. -/
theorem randint_mem (lo hi : Int) (n : Nat) (h : lo ≤ hi) :
    lo ≤ randint lo hi n ∧ randint lo hi n ≤ hi := by
  unfold randint
  have hpos : (0 : Int) < hi - lo + 1 := by omega
  have h1 : 0 ≤ (n : Int) % (hi - lo + 1) := Int.emod_nonneg _ (by omega)
  have h2 : (n : Int) % (hi - lo + 1) < hi - lo + 1 := Int.emod_lt_of_pos _ hpos
  omega

/-- Reading a replicated list. -/
theorem list_getD_replicate (n : Nat) (a : α) (i : Nat) (d : α) (h : i < n) :
    (List.replicate n a).getD i d = a := by
  induction n generalizing i with
  | zero => exact absurd h (by omega)
  | succ m ih =>
    cases i with
    | zero => rfl
    | succ k => exact ih k (by omega)

/-- Every cell of the starting grid is `Empty`. -/
theorem emptyGrid_cellAt (p : Pt) : cellAt emptyGrid p = none := by
  unfold cellAt emptyGrid
  by_cases hb : inBounds p = true
  · rw [if_pos hb]
    obtain ⟨hx, hy, -, -⟩ := inBounds_toNat hb
    rw [list_getD_replicate 80 _ _ _ hx, list_getD_replicate 20 _ _ _ hy]
  · rw [if_neg hb]

/-- The starting grid is well shaped. -/
theorem emptyGrid_dims : dimsOK emptyGrid = true := by decide

/-- Reading after a write: either unchanged or the written cell/value. -/
theorem cellAt_setCell_cases (g : Grid) (q : Pt) (v : Option Char) (p : Pt) :
    cellAt (setCell g q v) p = cellAt g p ∨
    (p = q ∧ cellAt (setCell g q v) p = v) := by
  by_cases hpq : p = q
  · subst hpq
    by_cases hb : inBounds p = true
    · by_cases hx : p.x.toNat < g.length
      · by_cases hy : p.y.toNat < (g.getD p.x.toNat []).length
        · right
          refine ⟨rfl, ?_⟩
          unfold setCell cellAt
          rw [if_pos hb, if_pos hb, list_getD_set_self g p.x.toNat _ [] hx,
            list_getD_set_self _ p.y.toNat _ none hy]
        · left
          unfold setCell cellAt
          rw [if_pos hb, if_pos hb, if_pos hb, list_getD_set_self g p.x.toNat _ [] hx,
            list_set_oob _ _ _ (Nat.le_of_not_lt hy)]
      · left
        unfold setCell
        rw [if_pos hb, list_set_oob _ _ _ (Nat.le_of_not_lt hx)]
    · left
      unfold setCell
      rw [if_neg hb]
  · left
    exact cellAt_setCell_other v hpq

/-! ## `fill_room` lemmas -/

/-- The tiles `fill_room` writes are wall or floor tiles, never `Empty`. -/
theorem tileFor_roomTile (room : Room) (i j : Nat) : roomTile (tileFor room i j) := by
  unfold tileFor roomTile
  by_cases h1 : j = 0 ∨ (j : Int) = room.height
  · rw [if_pos h1]; exact Or.inl rfl
  · rw [if_neg h1]
    by_cases h2 : i = 0 ∨ (i : Int) = room.width
    · rw [if_pos h2]; exact Or.inr (Or.inl rfl)
    · rw [if_neg h2]; exact Or.inr (Or.inr rfl)

/-- Written room tiles are not `Empty`. -/
theorem roomTile_ne_none {t : Option Char} (h : roomTile t) : t ≠ none := by
  rcases h with h | h | h <;> rw [h] <;> exact Option.some_ne_none _

/-- `fillCells` preserves non-`Empty` cells. -/
theorem fillCells_mono (level : Grid) (room : Room) :
    ∀ (cells : List (Nat × Nat)) (acc g2 : Grid),
      fillCells level room cells acc = some g2 →
      ∀ p, cellAt acc p ≠ none → cellAt g2 p ≠ none := by
  intro cells
  induction cells with
  | nil => intro acc g2 h p hp; cases h; exact hp
  | cons ij rest ih =>
    intro acc g2 h p hp
    rcases ij with ⟨i, j⟩
    unfold fillCells at h
    by_cases hc : cellAt level ⟨room.x + i, room.y + j⟩ ≠ none
    · rw [if_pos hc] at h; exact absurd h (by simp)
    · rw [if_neg hc] at h
      refine ih _ _ h p ?_
      rcases cellAt_setCell_cases acc ⟨room.x + (i : Int), room.y + (j : Int)⟩
        (tileFor room i j) p with h1 | ⟨-, h1⟩
      · rw [h1]; exact hp
      · rw [h1]; exact roomTile_ne_none (tileFor_roomTile room i j)

/-- `fillCells` only adds wall/floor tiles. -/
theorem fillCells_vals (level : Grid) (room : Room) :
    ∀ (cells : List (Nat × Nat)) (acc g2 : Grid),
      fillCells level room cells acc = some g2 →
      ∀ p, cellAt g2 p = cellAt acc p ∨ roomTile (cellAt g2 p) := by
  intro cells
  induction cells with
  | nil => intro acc g2 h p; cases h; exact Or.inl rfl
  | cons ij rest ih =>
    intro acc g2 h p
    rcases ij with ⟨i, j⟩
    unfold fillCells at h
    by_cases hc : cellAt level ⟨room.x + i, room.y + j⟩ ≠ none
    · rw [if_pos hc] at h; exact absurd h (by simp)
    · rw [if_neg hc] at h
      rcases ih _ _ h p with h1 | h1
      · rcases cellAt_setCell_cases acc ⟨room.x + (i : Int), room.y + (j : Int)⟩
          (tileFor room i j) p with h2 | ⟨-, h2⟩
        · exact Or.inl (h1.trans h2)
        · right; rw [h1, h2]; exact tileFor_roomTile room i j
      · exact Or.inr h1

/-- Cells not on the visited offsets keep their value. -/
theorem fillCells_untouched (level : Grid) (room : Room) :
    ∀ (cells : List (Nat × Nat)) (acc g2 : Grid),
      fillCells level room cells acc = some g2 →
      ∀ p : Pt, (∀ ij ∈ cells, p ≠ ⟨room.x + (ij.1 : Int), room.y + (ij.2 : Int)⟩) →
        cellAt g2 p = cellAt acc p := by
  intro cells
  induction cells with
  | nil => intro acc g2 h p _; cases h; rfl
  | cons ij rest ih =>
    intro acc g2 h p hne
    rcases ij with ⟨i, j⟩
    unfold fillCells at h
    by_cases hc : cellAt level ⟨room.x + i, room.y + j⟩ ≠ none
    · rw [if_pos hc] at h; exact absurd h (by simp)
    · rw [if_neg hc] at h
      have h1 := ih _ _ h p (fun q hq => hne q (List.mem_cons_of_mem _ hq))
      rw [h1]
      exact cellAt_setCell_other _ (hne (i, j) (List.mem_cons_self _ _))

/-- Every visited offset was `Empty` in the original level. -/
theorem fillCells_precheck (level : Grid) (room : Room) :
    ∀ (cells : List (Nat × Nat)) (acc g2 : Grid),
      fillCells level room cells acc = some g2 →
      ∀ ij ∈ cells, cellAt level ⟨room.x + (ij.1 : Int), room.y + (ij.2 : Int)⟩ = none := by
  intro cells
  induction cells with
  | nil => intro acc g2 _ ij h; exact absurd h (by simp)
  | cons ij0 rest ih =>
    intro acc g2 h ij hij
    rcases ij0 with ⟨i, j⟩
    unfold fillCells at h
    by_cases hc : cellAt level ⟨room.x + i, room.y + j⟩ ≠ none
    · rw [if_pos hc] at h; exact absurd h (by simp)
    · rw [if_neg hc] at h
      rcases List.mem_cons.mp hij with h1 | h1
      · subst h1
        simpa using hc
      · exact ih _ _ h ij h1

/-- Every visited in-bounds offset is non-`Empty` in the result. -/
theorem fillCells_wrote (level : Grid) (room : Room) :
    ∀ (cells : List (Nat × Nat)) (acc g2 : Grid),
      fillCells level room cells acc = some g2 → dimsOK acc = true →
      ∀ i j : Nat, (i, j) ∈ cells →
        inBounds ⟨room.x + (i : Int), room.y + (j : Int)⟩ = true →
        cellAt g2 ⟨room.x + (i : Int), room.y + (j : Int)⟩ ≠ none := by
  intro cells
  induction cells with
  | nil => intro acc g2 _ _ i j h; exact absurd h (by simp)
  | cons ij0 rest ih =>
    intro acc g2 h hd i j hij hb
    rcases ij0 with ⟨i0, j0⟩
    unfold fillCells at h
    by_cases hc : cellAt level ⟨room.x + i0, room.y + j0⟩ ≠ none
    · rw [if_pos hc] at h; exact absurd h (by simp)
    · rw [if_neg hc] at h
      rcases List.mem_cons.mp hij with h1 | h1
      · obtain ⟨hi0, hj0⟩ := Prod.mk.injEq .. ▸ h1
        subst hi0
        subst hj0
        refine fillCells_mono level room rest _ _ h _ ?_
        rw [cellAt_setCell_same _ hd hb]
        exact roomTile_ne_none (tileFor_roomTile room i j)
      · exact ih _ _ h (dimsOK_setCell _ _ hd) i j h1 hb

/-- `fillCells` keeps the grid shape. -/
theorem fillCells_dims (level : Grid) (room : Room) :
    ∀ (cells : List (Nat × Nat)) (acc g2 : Grid),
      fillCells level room cells acc = some g2 → dimsOK acc = true →
      dimsOK g2 = true := by
  intro cells
  induction cells with
  | nil => intro acc g2 h hd; cases h; exact hd
  | cons ij rest ih =>
    intro acc g2 h hd
    rcases ij with ⟨i, j⟩
    unfold fillCells at h
    by_cases hc : cellAt level ⟨room.x + i, room.y + j⟩ ≠ none
    · rw [if_pos hc] at h; exact absurd h (by simp)
    · rw [if_neg hc] at h
      exact ih _ _ h (dimsOK_setCell _ _ hd)

/-- Offset membership for the fill loop. -/
theorem mem_cellsOf {room : Room} {i j : Nat} :
    (i, j) ∈ cellsOf room ↔ i < room.width.toNat + 1 ∧ j < room.height.toNat + 1 := by
  unfold cellsOf
  constructor
  · intro h
    rw [List.mem_flatMap] at h
    obtain ⟨j0, hj0, hmem⟩ := h
    rw [List.mem_map] at hmem
    obtain ⟨i0, hi0, heq⟩ := hmem
    rw [List.mem_range] at hj0 hi0
    obtain ⟨h1, h2⟩ := Prod.mk.injEq .. ▸ heq
    exact ⟨h1 ▸ hi0, h2 ▸ hj0⟩
  · intro ⟨h1, h2⟩
    rw [List.mem_flatMap]
    exact ⟨j, List.mem_range.mpr h2, List.mem_map.mpr ⟨i, List.mem_range.mpr h1, rfl⟩⟩

/-- A footprint point corresponds to a visited offset. -/
theorem inFp_coverage {room : Room} {p : Pt} (h : inFp room p) :
    ∃ i j : Nat, (i, j) ∈ cellsOf room ∧
      p = ⟨room.x + (i : Int), room.y + (j : Int)⟩ := by
  obtain ⟨h1, h2, h3, h4⟩ := h
  refine ⟨(p.x - room.x).toNat, (p.y - room.y).toNat, ?_, ?_⟩
  · rw [mem_cellsOf]
    constructor <;> omega
  · have hxx : room.x + (((p.x - room.x).toNat : Nat) : Int) = p.x := by omega
    have hyy : room.y + (((p.y - room.y).toNat : Nat) : Int) = p.y := by omega
    rw [hxx, hyy]

/-- Split a successful `fill_room` into its fill and margin checks. -/
theorem fillRoom_elim {level : Grid} {room : Room} {g2 : Grid}
    (h : fillRoom level room = some g2) :
    fillCells level room (cellsOf room) level = some g2 ∧
    marginsOK level room = true := by
  unfold fillRoom at h
  rcases hfc : fillCells level room (cellsOf room) level with _ | g3
  · rw [hfc] at h; exact absurd h (by simp)
  · rw [hfc] at h
    cases hm : marginsOK level room with
    | false => simp [hm] at h
    | true =>
      simp only [hm, if_true] at h
      rw [Option.some_inj] at h
      exact ⟨by rw [h], rfl⟩

/-- The margin checks of `fill_room`, in point form: the column `MIN_SEP`
left of the room, the column `MIN_SEP` right of it, the row `MIN_SEP`
above and the row `MIN_SEP` below are all `Empty` in the original level
(over the room's own rows respectively columns). -/
theorem marginsOK_spec {level : Grid} {room : Room}
    (h : marginsOK level room = true) :
    (∀ q : Pt, q.x = room.x - MIN_SEP → room.y ≤ q.y → q.y ≤ room.y + room.height →
      cellAt level q = none) ∧
    (∀ q : Pt, q.x = room.x + room.width + MIN_SEP → room.y ≤ q.y →
      q.y ≤ room.y + room.height → cellAt level q = none) ∧
    (∀ q : Pt, q.y = room.y - MIN_SEP → room.x ≤ q.x → q.x ≤ room.x + room.width →
      cellAt level q = none) ∧
    (∀ q : Pt, q.y = room.y + room.height + MIN_SEP → room.x ≤ q.x →
      q.x ≤ room.x + room.width → cellAt level q = none) := by
  unfold marginsOK at h
  rw [Bool.and_eq_true, List.all_eq_true, List.all_eq_true] at h
  obtain ⟨hLR, hTB⟩ := h
  have hrow : ∀ q : Pt, room.y ≤ q.y → q.y ≤ room.y + room.height →
      (cellAt level ⟨room.x - MIN_SEP, q.y⟩).isNone = true ∧
      (cellAt level ⟨room.x + room.width + MIN_SEP, q.y⟩).isNone = true := by
    intro q hy1 hy2
    have hj : (q.y - room.y).toNat ∈ List.range (room.height.toNat + 1) :=
      List.mem_range.mpr (by omega)
    have := hLR _ hj
    rw [Bool.and_eq_true] at this
    have hcast : room.y + (((q.y - room.y).toNat : Int)) = q.y := by omega
    rw [hcast] at this
    exact this
  have hcol : ∀ q : Pt, room.x ≤ q.x → q.x ≤ room.x + room.width →
      (cellAt level ⟨q.x, room.y - MIN_SEP⟩).isNone = true ∧
      (cellAt level ⟨q.x, room.y + room.height + MIN_SEP⟩).isNone = true := by
    intro q hx1 hx2
    have hi : (q.x - room.x).toNat ∈ List.range (room.width.toNat + 1) :=
      List.mem_range.mpr (by omega)
    have := hTB _ hi
    rw [Bool.and_eq_true] at this
    have hcast : room.x + (((q.x - room.x).toNat : Int)) = q.x := by omega
    rw [hcast] at this
    exact this
  refine ⟨fun q hq hy1 hy2 => ?_, fun q hq hy1 hy2 => ?_,
    fun q hq hx1 hx2 => ?_, fun q hq hx1 hx2 => ?_⟩
  · have := (hrow q hy1 hy2).1
    rw [Option.isNone_iff_eq_none] at this
    have hqe : q = ⟨room.x - MIN_SEP, q.y⟩ := by cases q; simp_all
    rw [hqe]; exact this
  · have := (hrow q hy1 hy2).2
    rw [Option.isNone_iff_eq_none] at this
    have hqe : q = ⟨room.x + room.width + MIN_SEP, q.y⟩ := by cases q; simp_all
    rw [hqe]; exact this
  · have := (hcol q hx1 hx2).1
    rw [Option.isNone_iff_eq_none] at this
    have hqe : q = ⟨q.x, room.y - MIN_SEP⟩ := by cases q; simp_all
    rw [hqe]; exact this
  · have := (hcol q hx1 hx2).2
    rw [Option.isNone_iff_eq_none] at this
    have hqe : q = ⟨q.x, room.y + room.height + MIN_SEP⟩ := by cases q; simp_all
    rw [hqe]; exact this

/-- The heart of the no-overlap invariant: what `fill_room`'s checks on
the new room `B` enforce against an already-committed room `A`.  `A`'s
footprint is non-`Empty` on the grid, `B`'s footprint read `Empty`, and
`B`'s four margin lines read `Empty`; together with the size bounds this
yields disjoint footprints and a `> MIN_SEP` gap on any shared row or
column (but nothing about diagonal corners). -/
theorem sep_of_checks {g : Grid} {A B : Room} (hA : roomOK A) (hB : roomOK B)
    (hAne : ∀ p, inFp A p → cellAt g p ≠ none)
    (hBem : ∀ p, inFp B p → cellAt g p = none)
    (hL : ∀ q : Pt, q.x = B.x - MIN_SEP → B.y ≤ q.y → q.y ≤ B.y + B.height →
      cellAt g q = none)
    (hR : ∀ q : Pt, q.x = B.x + B.width + MIN_SEP → B.y ≤ q.y →
      q.y ≤ B.y + B.height → cellAt g q = none)
    (hT : ∀ q : Pt, q.y = B.y - MIN_SEP → B.x ≤ q.x → q.x ≤ B.x + B.width →
      cellAt g q = none)
    (hBot : ∀ q : Pt, q.y = B.y + B.height + MIN_SEP → B.x ≤ q.x →
      q.x ≤ B.x + B.width → cellAt g q = none) :
    sep A B := by
  obtain ⟨a1, a2, a3, a4, a5, a6, a7, a8⟩ := hA
  obtain ⟨b1, b2, b3, b4, b5, b6, b7, b8⟩ := hB
  unfold sep
  unfold MIN_SEP at a1 a2 b1 b2 a7 a8 b7 b8 ⊢
  have hdisj : ∀ p : Pt, ¬(inFp A p ∧ inFp B p) := by
    intro p ⟨hpa, hpb⟩
    exact hAne p hpa (hBem p hpb)
  have hmk : ∀ (u v : Int) (rm : Room), rm.x ≤ u → u ≤ rm.x + rm.width →
      rm.y ≤ v → v ≤ rm.y + rm.height → inFp rm ⟨u, v⟩ :=
    fun u v rm h1 h2 h3 h4 => ⟨h1, h2, h3, h4⟩
  refine ⟨hdisj, fun hrm => ?_, fun hcm => ?_⟩
  · obtain ⟨hm1, hm2⟩ := hrm
    by_contra hcon
    push_neg at hcon
    obtain ⟨hc1, hc2⟩ := hcon
    obtain ⟨r, hra1, hrb1, hra2, hrb2⟩ :
        ∃ r, A.y ≤ r ∧ B.y ≤ r ∧ r ≤ A.y + A.height ∧ r ≤ B.y + B.height :=
      ⟨max A.y B.y, le_max_left _ _, le_max_right _ _,
        max_le (by omega) hm2, max_le hm1 (by omega)⟩
    by_cases h1 : A.x ≤ B.x + B.width ∧ B.x ≤ A.x + A.width
    · obtain ⟨c, hca1, hcb1, hca2, hcb2⟩ :
          ∃ c, A.x ≤ c ∧ B.x ≤ c ∧ c ≤ A.x + A.width ∧ c ≤ B.x + B.width :=
        ⟨max A.x B.x, le_max_left _ _, le_max_right _ _,
          max_le (by omega) h1.2, max_le h1.1 (by omega)⟩
      exact hdisj ⟨c, r⟩ ⟨hmk c r A hca1 hca2 hra1 hra2, hmk c r B hcb1 hcb2 hrb1 hrb2⟩
    · push_neg at h1
      by_cases h2 : B.x ≤ A.x + A.width
      · have h3 : B.x + B.width < A.x := by
          by_contra hq
          push_neg at hq
          have := h1 hq
          omega
        have hfa : inFp A ⟨B.x + B.width + 2, r⟩ :=
          hmk _ _ A (by omega) (by omega) hra1 hra2
        exact hAne _ hfa (hR ⟨B.x + B.width + 2, r⟩ rfl hrb1 hrb2)
      · push_neg at h2
        have hfa : inFp A ⟨B.x - 2, r⟩ := hmk _ _ A (by omega) (by omega) hra1 hra2
        exact hAne _ hfa (hL ⟨B.x - 2, r⟩ rfl hrb1 hrb2)
  · obtain ⟨hm1, hm2⟩ := hcm
    by_contra hcon
    push_neg at hcon
    obtain ⟨hc1, hc2⟩ := hcon
    obtain ⟨c, hca1, hcb1, hca2, hcb2⟩ :
        ∃ c, A.x ≤ c ∧ B.x ≤ c ∧ c ≤ A.x + A.width ∧ c ≤ B.x + B.width :=
      ⟨max A.x B.x, le_max_left _ _, le_max_right _ _,
        max_le (by omega) hm2, max_le hm1 (by omega)⟩
    by_cases h1 : A.y ≤ B.y + B.height ∧ B.y ≤ A.y + A.height
    · obtain ⟨r, hra1, hrb1, hra2, hrb2⟩ :
          ∃ r, A.y ≤ r ∧ B.y ≤ r ∧ r ≤ A.y + A.height ∧ r ≤ B.y + B.height :=
        ⟨max A.y B.y, le_max_left _ _, le_max_right _ _,
          max_le (by omega) h1.2, max_le h1.1 (by omega)⟩
      exact hdisj ⟨c, r⟩ ⟨hmk c r A hca1 hca2 hra1 hra2, hmk c r B hcb1 hcb2 hrb1 hrb2⟩
    · push_neg at h1
      by_cases h2 : B.y ≤ A.y + A.height
      · have h3 : B.y + B.height < A.y := by
          by_contra hq
          push_neg at hq
          have := h1 hq
          omega
        have hfa : inFp A ⟨c, B.y + B.height + 2⟩ :=
          hmk _ _ A hca1 hca2 (by omega) (by omega)
        exact hAne _ hfa (hBot ⟨c, B.y + B.height + 2⟩ rfl hcb1 hcb2)
      · push_neg at h2
        have hfa : inFp A ⟨c, B.y - 2⟩ := hmk _ _ A hca1 hca2 (by omega) (by omega)
        exact hAne _ hfa (hT ⟨c, B.y - 2⟩ rfl hcb1 hcb2)

/-- Introduction form of `roomOK` on explicit fields. -/
theorem roomOK_mk (x y w h : Int) (h1 : MIN_SEP ≤ x) (h2 : MIN_SEP ≤ y)
    (h3 : 5 ≤ w) (h4 : w ≤ 20) (h5 : 5 ≤ h) (h6 : h ≤ 8)
    (h7 : x + w + MIN_SEP < X_DIM) (h8 : y + h + MIN_SEP < Y_DIM) :
    roomOK ⟨x, y, w, h⟩ :=
  ⟨h1, h2, h3, h4, h5, h6, h7, h8⟩

/-- A successful `tryPlace` yields a candidate that passed the boundary
checks and a successful `fill_room` on it. -/
theorem tryPlace_some :
    ∀ (fuel : Nat) (s : Seeds) (level g2 : Grid) (room : Room) (s2 : Seeds),
      tryPlace fuel s level = some (g2, room, s2) →
      roomOK room ∧ fillRoom level room = some g2 := by
  intro fuel
  induction fuel with
  | zero => intro s level g2 room s2 h; exact absurd h (by simp [tryPlace])
  | succ n ih =>
    intro s level g2 room s2 h
    unfold tryPlace at h
    rcases hd1 : draw s with ⟨nx, s1⟩
    rw [hd1] at h
    simp only at h
    rcases hd2 : draw s1 with ⟨ny, sB⟩
    rw [hd2] at h
    simp only at h
    rcases hd3 : draw sB with ⟨nh, sC⟩
    rw [hd3] at h
    simp only at h
    rcases hd4 : draw sC with ⟨nw, sD⟩
    rw [hd4] at h
    simp only at h
    by_cases hbx : randint MIN_SEP X_DIM nx + randint 5 20 nw + MIN_SEP ≥ X_DIM
    · rw [if_pos hbx] at h; exact ih _ _ _ _ _ h
    · rw [if_neg hbx] at h
      by_cases hby : randint MIN_SEP Y_DIM ny + randint 5 8 nh + MIN_SEP ≥ Y_DIM
      · rw [if_pos hby] at h; exact ih _ _ _ _ _ h
      · rw [if_neg hby] at h
        rcases hfr : fillRoom level ⟨randint MIN_SEP X_DIM nx, randint MIN_SEP Y_DIM ny,
            randint 5 20 nw, randint 5 8 nh⟩ with _ | gf
        · rw [hfr] at h; exact ih _ _ _ _ _ h
        · rw [hfr] at h
          simp only [Option.some_inj, Prod.mk.injEq] at h
          obtain ⟨hg, hrm, hs⟩ := h
          subst hg
          subst hrm
          refine ⟨?_, hfr⟩
          have hx := randint_mem MIN_SEP X_DIM nx (by decide)
          have hy := randint_mem MIN_SEP Y_DIM ny (by decide)
          have hw := randint_mem 5 20 nw (by decide)
          have hh := randint_mem 5 8 nh (by decide)
          exact roomOK_mk _ _ _ _ hx.1 hy.1 hw.1 hw.2 hh.1 hh.2 (by omega) (by omega)

/-- Consolidated consequences of a successful `fill_room`. -/
theorem fillRoom_props {level : Grid} {room : Room} {g2 : Grid}
    (h : fillRoom level room = some g2) (hd : dimsOK level = true) :
    dimsOK g2 = true ∧
    (∀ p, inFp room p → cellAt level p = none) ∧
    (∀ p, cellAt level p ≠ none → cellAt g2 p ≠ none) ∧
    (∀ p, cellAt g2 p = cellAt level p ∨ roomTile (cellAt g2 p)) ∧
    (roomOK room → ∀ p, inFp room p → cellAt g2 p ≠ none) := by
  obtain ⟨hfc, hm⟩ := fillRoom_elim h
  refine ⟨fillCells_dims _ _ _ _ _ hfc hd, ?_, fillCells_mono _ _ _ _ _ hfc,
    fillCells_vals _ _ _ _ _ hfc, ?_⟩
  · intro p hp
    obtain ⟨i, j, hmem, rfl⟩ := inFp_coverage hp
    exact fillCells_precheck _ _ _ _ _ hfc (i, j) hmem
  · intro hro p hp
    obtain ⟨i, j, hmem, hpe⟩ := inFp_coverage hp
    subst hpe
    exact fillCells_wrote _ _ _ _ _ hfc hd i j hmem (roomOK_fp_inBounds hro hp)

/-- The full invariant of the room-placement loop: shape, count, bounds,
claimed footprints, pairwise separation, committed tile values. -/
theorem placeRooms_inv :
    ∀ (k fuel : Nat) (s : Seeds) (g : Grid) (rooms : List Room)
      (g2 : Grid) (rooms2 : List Room) (s2 : Seeds),
      placeRooms k fuel s g rooms = some (g2, rooms2, s2) →
      dimsOK g = true →
      (∀ r ∈ rooms, roomOK r) →
      (∀ r ∈ rooms, ∀ p, inFp r p → cellAt g p ≠ none) →
      List.Pairwise sep rooms →
      (∀ p, cellAt g p = none ∨ roomTile (cellAt g p)) →
      dimsOK g2 = true ∧ rooms2.length = rooms.length + k ∧
      (∀ r ∈ rooms2, roomOK r) ∧
      (∀ r ∈ rooms2, ∀ p, inFp r p → cellAt g2 p ≠ none) ∧
      List.Pairwise sep rooms2 ∧
      (∀ p, cellAt g2 p = none ∨ roomTile (cellAt g2 p)) := by
  intro k
  induction k with
  | zero =>
    intro fuel s g rooms g2 rooms2 s2 h hd hro hcl hpw hv
    unfold placeRooms at h
    simp only [Option.some_inj, Prod.mk.injEq] at h
    obtain ⟨h1, h2, -⟩ := h
    subst h1
    subst h2
    exact ⟨hd, by omega, hro, hcl, hpw, hv⟩
  | succ n ih =>
    intro fuel s g rooms g2 rooms2 s2 h hd hro hcl hpw hv
    unfold placeRooms at h
    rcases htp : tryPlace fuel s g with _ | ⟨⟨g1, room, s1⟩⟩
    · rw [htp] at h; exact absurd h (by simp)
    · rw [htp] at h
      simp only at h
      obtain ⟨hrOK, hfr⟩ := tryPlace_some fuel s g g1 room s1 htp
      obtain ⟨hd1, hpre, hmono, hvals, hwrote⟩ := fillRoom_props hfr hd
      obtain ⟨hmL, hmR, hmT, hmB⟩ := marginsOK_spec (fillRoom_elim hfr).2
      have hro1 : ∀ r ∈ rooms ++ [room], roomOK r := by
        intro r hr
        rcases List.mem_append.mp hr with h1 | h1
        · exact hro r h1
        · rw [List.mem_singleton] at h1; subst h1; exact hrOK
      have hcl1 : ∀ r ∈ rooms ++ [room], ∀ p, inFp r p → cellAt g1 p ≠ none := by
        intro r hr p hp
        rcases List.mem_append.mp hr with h1 | h1
        · exact hmono p (hcl r h1 p hp)
        · rw [List.mem_singleton] at h1; subst h1; exact hwrote hrOK p hp
      have hpw1 : List.Pairwise sep (rooms ++ [room]) := by
        rw [List.pairwise_append]
        refine ⟨hpw, List.pairwise_singleton _ _, ?_⟩
        intro a ha b hb
        rw [List.mem_singleton] at hb
        subst hb
        exact sep_of_checks (hro a ha) hrOK (hcl a ha) hpre hmL hmR hmT hmB
      have hv1 : ∀ p, cellAt g1 p = none ∨ roomTile (cellAt g1 p) := by
        intro p
        rcases hvals p with h1 | h1
        · rw [h1]; exact hv p
        · exact Or.inr h1
      obtain ⟨c1, c2, c3, c4, c5, c6⟩ :=
        ih fuel s1 g1 (rooms ++ [room]) g2 rooms2 s2 h hd1 hro1 hcl1 hpw1 hv1
      refine ⟨c1, ?_, c3, c4, c5, c6⟩
      rw [List.length_append] at c2
      simp only [List.length_singleton] at c2
      omega

/-- Every carved cell reads as a corridor tile. -/
theorem carve_mem (mid : List Pt) :
    ∀ (g : Grid) (p : Pt), dimsOK g = true → (∀ r ∈ mid, inBounds r = true) →
      p ∈ mid → cellAt (carve g mid) p = some '#' := by
  induction mid with
  | nil => intro g p _ _ hp; exact absurd hp (by simp)
  | cons q rest ih =>
    intro g p hd hb hp
    show cellAt (carve (setCell g q (some '#')) rest) p = some '#'
    by_cases hpr : p ∈ rest
    · exact ih _ p (dimsOK_setCell _ _ hd) (fun r hr => hb r (List.mem_cons_of_mem _ hr)) hpr
    · have hpq : p = q := by
        rcases List.mem_cons.mp hp with h1 | h1
        · exact h1
        · exact absurd h1 hpr
      subst hpq
      rw [cellAt_carve_not_mem rest _ p hpr]
      exact cellAt_setCell_same _ hd (hb p (List.mem_cons_self _ _))

/-- `create_path` only ever commits corridor tiles (or restores), and
keeps the grid shape. -/
theorem createPath_cells (fuel : Nat) (g : Grid) (a b : Pt)
    (hd : dimsOK g = true) :
    dimsOK (createPath fuel g a b).2 = true ∧
    ∀ p, cellAt (createPath fuel g a b).2 p = cellAt g p ∨
      cellAt (createPath fuel g a b).2 p = some '#' := by
  rcases hcp : createPath fuel g a b with ⟨bo, g2⟩
  cases bo with
  | false =>
    have hgg := createPath_false fuel g a b g2 hcp
    subst hgg
    exact ⟨hd, fun p => Or.inl rfl⟩
  | true =>
    obtain ⟨mid, -, -, hcells, hcarve⟩ := createPath_true fuel g a b g2 hd hcp
    subst hcarve
    refine ⟨dimsOK_carve mid g hd, fun p => ?_⟩
    by_cases hp : p ∈ mid
    · exact Or.inr (carve_mem mid g p hd (fun r hr => (hcells r hr).1) hp)
    · exact Or.inl (cellAt_carve_not_mem mid g p hp)

/-- One step of the door/corridor loop, in projection form. -/
theorem connectRooms_cons (s : Seeds) (g : Grid) (r0 r1 : Room)
    (rest : List Room) :
    connectRooms s g (r0 :: r1 :: rest) =
      connectRooms (randomDoor r1 (randomDoor r0 s).2).2
        (createPath pathFuel
          (setCell (setCell g (randomDoor r0 s).1 (some '+'))
            (randomDoor r1 (randomDoor r0 s).2).1 (some '+'))
          (randomDoor r0 s).1 (randomDoor r1 (randomDoor r0 s).2).1).2
        (r1 :: rest) := rfl

/-- The door/corridor stage keeps the shape and only adds door and
corridor tiles. -/
theorem connectRooms_inv :
    ∀ (rooms : List Room) (s : Seeds) (g : Grid), dimsOK g = true →
      dimsOK (connectRooms s g rooms).1 = true ∧
      ∀ p, cellAt (connectRooms s g rooms).1 p = cellAt g p ∨
        cellAt (connectRooms s g rooms).1 p = some '+' ∨
        cellAt (connectRooms s g rooms).1 p = some '#' := by
  intro rooms
  induction rooms with
  | nil => intro s g hd; exact ⟨hd, fun p => Or.inl rfl⟩
  | cons r0 rest ih =>
    intro s g hd
    cases rest with
    | nil => exact ⟨hd, fun p => Or.inl rfl⟩
    | cons r1 rest2 =>
      rw [connectRooms_cons]
      have hd1 : dimsOK (setCell (setCell g (randomDoor r0 s).1 (some '+'))
          (randomDoor r1 (randomDoor r0 s).2).1 (some '+')) = true :=
        dimsOK_setCell _ _ (dimsOK_setCell _ _ hd)
      obtain ⟨hdcp, hcp⟩ := createPath_cells pathFuel _ (randomDoor r0 s).1
        (randomDoor r1 (randomDoor r0 s).2).1 hd1
      obtain ⟨hdf, hf⟩ := ih (randomDoor r1 (randomDoor r0 s).2).2 _ hdcp
      refine ⟨hdf, fun p => ?_⟩
      rcases hf p with h1 | h1 | h1
      · rw [h1]
        rcases hcp p with h2 | h2
        · rw [h2]
          rcases cellAt_setCell_cases (setCell g (randomDoor r0 s).1 (some '+'))
            (randomDoor r1 (randomDoor r0 s).2).1 (some '+') p with h3 | ⟨-, h3⟩
          · rw [h3]
            rcases cellAt_setCell_cases g (randomDoor r0 s).1 (some '+') p with
              h4 | ⟨-, h4⟩
            · exact Or.inl h4
            · exact Or.inr (Or.inl h4)
          · exact Or.inr (Or.inl h3)
        · exact Or.inr (Or.inr h2)
      · exact Or.inr (Or.inl h1)
      · exact Or.inr (Or.inr h1)

/-- `add_staircase`, in projection form: one staircase tile written at a
stream-chosen interior point. -/
theorem addStaircase_eq (level : Grid) (room : Room) (c : Char) (s : Seeds) :
    addStaircase level room c s =
      (setCell level
        ((interiorPoints room).getD
          ((draw s).1 % (interiorPoints room).length) ⟨0, 0⟩) (some c),
        (draw s).2) := rfl

/-- The stream-chosen staircase point is an interior point of the room. -/
theorem interior_getD_mem (room : Room) (n : Nat)
    (h5w : 5 ≤ room.width) (h5h : 5 ≤ room.height) :
    (interiorPoints room).getD (n % (interiorPoints room).length) ⟨0, 0⟩
      ∈ interiorPoints room := by
  have hmem : (⟨room.x + ((0 + 1 : Nat) : Int), room.y + ((0 + 1 : Nat) : Int)⟩ : Pt)
      ∈ interiorPoints room := by
    unfold interiorPoints
    refine List.mem_flatMap.mpr ⟨0, List.mem_range.mpr (by omega), ?_⟩
    exact List.mem_map.mpr ⟨0, List.mem_range.mpr (by omega), rfl⟩
  have hlen : 0 < (interiorPoints room).length :=
    List.length_pos.mpr (List.ne_nil_of_mem hmem)
  exact list_getD_mem _ _ _ (Nat.mod_lt _ hlen)

/-- Membership in the interior point list gives strict interior bounds. -/
theorem mem_interiorPoints {room : Room} {p : Pt}
    (h : p ∈ interiorPoints room) : inInterior room p := by
  unfold interiorPoints at h
  rw [List.mem_flatMap] at h
  obtain ⟨j, hj, hmem⟩ := h
  rw [List.mem_map] at hmem
  obtain ⟨i, hi, heq⟩ := hmem
  rw [List.mem_range] at hj
  rw [List.mem_range] at hi
  subst heq
  have hmk : ∀ (a b : Int), room.x + 1 ≤ a → a ≤ room.x + room.width - 1 →
      room.y + 1 ≤ b → b ≤ room.y + room.height - 1 → inInterior room ⟨a, b⟩ :=
    fun a b h1 h2 h3 h4 => ⟨h1, h2, h3, h4⟩
  exact hmk _ _ (by omega) (by omega) (by omega) (by omega)

/-- The modelled `random.sample(rooms, 2)` picks two valid distinct
indices. -/
theorem sampleTwo_spec (len n1 n2 : Nat) (hlen : 2 ≤ len) :
    (sampleTwo len n1 n2).1 < len ∧ (sampleTwo len n1 n2).2 < len ∧
    (sampleTwo len n1 n2).1 ≠ (sampleTwo len n1 n2).2 := by
  unfold sampleTwo
  simp only
  have hl : 0 < len := by omega
  have hi : n1 % len < len := Nat.mod_lt _ hl
  have hoff2 : n2 % (len - 1) < len - 1 := Nat.mod_lt _ (by omega)
  refine ⟨hi, Nat.mod_lt _ hl, ?_⟩
  intro heq
  have hdm := Nat.div_add_mod (n1 % len + (1 + n2 % (len - 1))) len
  rcases Nat.eq_zero_or_pos ((n1 % len + (1 + n2 % (len - 1))) / len) with hq | hq
  · rw [hq] at hdm
    omega
  · have hge : len ≤ len * ((n1 % len + (1 + n2 % (len - 1))) / len) :=
      Nat.le_mul_of_pos_right len hq
    omega

/-- Decomposition of a successful `make_level` run: a well-shaped grid
`g2` holding only committed room/door/corridor tiles, a room list
satisfying the count, bounds and separation invariants, and the two
staircases written last at interior points of two rooms at distinct
indices. -/
theorem makeLevel_decomp (fuel : Nat) (s : Seeds) (g : Grid) (rooms : List Room)
    (h : makeLevel fuel s = some (g, rooms)) :
    ∃ (g2 : Grid) (iUp iDown : Nat) (pUp pDown : Pt),
      dimsOK g2 = true ∧
      (∀ p, cellAt g2 p = none ∨ roomTile (cellAt g2 p) ∨
        cellAt g2 p = some '+' ∨ cellAt g2 p = some '#') ∧
      (∀ r ∈ rooms, roomOK r) ∧
      List.Pairwise sep rooms ∧
      3 ≤ rooms.length ∧ rooms.length ≤ 5 ∧
      iUp < rooms.length ∧ iDown < rooms.length ∧ iUp ≠ iDown ∧
      pUp ∈ interiorPoints (rooms.getD iUp ⟨0, 0, 0, 0⟩) ∧
      pDown ∈ interiorPoints (rooms.getD iDown ⟨0, 0, 0, 0⟩) ∧
      g = setCell (setCell g2 pUp (some '<')) pDown (some '>') := by
  unfold makeLevel at h
  rcases hds : draw s with ⟨nr, s1⟩
  rw [hds] at h
  simp only at h
  rcases hpr : placeRooms (randint 3 5 nr).toNat fuel s1 emptyGrid [] with
    _ | ⟨⟨lvl1, rooms1, s2⟩⟩
  · rw [hpr] at h; exact absurd h (by simp)
  · rw [hpr] at h
    simp only at h
    rcases hcr : connectRooms s2 lvl1 rooms1 with ⟨lvl2, s3⟩
    rw [hcr] at h
    simp only at h
    rcases hd1 : draw s3 with ⟨n1, s4⟩
    rw [hd1] at h
    simp only at h
    rcases hd2 : draw s4 with ⟨n2, s5⟩
    rw [hd2] at h
    simp only at h
    rcases hsm : sampleTwo rooms1.length n1 n2 with ⟨iU, iD⟩
    rw [hsm] at h
    simp only at h
    rw [addStaircase_eq] at h
    simp only at h
    rw [addStaircase_eq] at h
    simp only [Option.some_inj, Prod.mk.injEq] at h
    obtain ⟨hg, hrooms⟩ := h
    subst hrooms
    obtain ⟨hdim1, hlen1, hro1, hcl1, hpw1, hv1⟩ :=
      placeRooms_inv (randint 3 5 nr).toNat fuel s1 emptyGrid [] lvl1 rooms1 s2
        hpr emptyGrid_dims
        (fun r hr => absurd hr (List.not_mem_nil r))
        (fun r hr => absurd hr (List.not_mem_nil r))
        List.Pairwise.nil
        (fun p => Or.inl (emptyGrid_cellAt p))
    have hcnt := randint_mem 3 5 nr (by decide)
    simp only [List.length_nil] at hlen1
    have hlen3 : 3 ≤ rooms1.length := by omega
    have hlen5 : rooms1.length ≤ 5 := by omega
    have hconn := connectRooms_inv rooms1 s2 lvl1 hdim1
    rw [hcr] at hconn
    obtain ⟨hdim2, hvals2⟩ := hconn
    have hsmsp := sampleTwo_spec rooms1.length n1 n2 (by omega)
    rw [hsm] at hsmsp
    obtain ⟨hiU, hiD, hne⟩ := hsmsp
    have hupOK : roomOK (rooms1.getD iU ⟨0, 0, 0, 0⟩) :=
      hro1 _ (list_getD_mem rooms1 iU _ hiU)
    have hdnOK : roomOK (rooms1.getD iD ⟨0, 0, 0, 0⟩) :=
      hro1 _ (list_getD_mem rooms1 iD _ hiD)
    refine ⟨lvl2, iU, iD, _, _, hdim2, ?_, hro1, hpw1, hlen3, hlen5, hiU, hiD, hne,
      interior_getD_mem _ _ hupOK.2.2.1 hupOK.2.2.2.2.1,
      interior_getD_mem _ _ hdnOK.2.2.1 hdnOK.2.2.2.2.1,
      hg.symm⟩
    intro p
    rcases hvals2 p with h1 | h1 | h1
    · rw [h1]
      rcases hv1 p with h2 | h2
      · exact Or.inl h2
      · exact Or.inr (Or.inl h2)
    · exact Or.inr (Or.inr (Or.inl h1))
    · exact Or.inr (Or.inr (Or.inr h1))

/-- Committed (non-staircase) tiles are neither staircases nor the
transient marker. -/
theorem commit_no_stairs {t : Option Char}
    (h : t = none ∨ roomTile t ∨ t = some '+' ∨ t = some '#') :
    t ≠ some '<' ∧ t ≠ some '>' ∧ t ≠ some '$' := by
  rcases h with h | h | h | h
  · rw [h]; exact ⟨by decide, by decide, by decide⟩
  · rcases h with h | h | h <;> rw [h] <;> exact ⟨by decide, by decide, by decide⟩
  · rw [h]; exact ⟨by decide, by decide, by decide⟩
  · rw [h]; exact ⟨by decide, by decide, by decide⟩

/-- Indexed separation from the pairwise invariant, in both orders. -/
theorem pairwise_sep_getD {rooms : List Room} (hpw : List.Pairwise sep rooms)
    {i j : Nat} (hi : i < rooms.length) (hj : j < rooms.length) (hne : i ≠ j) :
    sep (rooms.getD i ⟨0, 0, 0, 0⟩) (rooms.getD j ⟨0, 0, 0, 0⟩) := by
  have hpw' := List.pairwise_iff_getElem.mp hpw
  rw [List.getD_eq_getElem _ _ hi, List.getD_eq_getElem _ _ hj]
  rcases Nat.lt_or_ge i j with hlt | hge
  · exact hpw' i j hi hj hlt
  · exact sep_symm (hpw' j i hj hi (by omega))

/-! ## C4, C8, C9, C10: `make_level` invariants -/

/-- A concrete stream of random draws for `make_level`: three rooms
`(2,2,8,6)`, `(11,9,5,5)` and `(40,2,5,5)` — the first two touching
corner-to-corner — then door sides/offsets giving short corridors, then
the staircase choices. -/
def seedsC4 : Seeds :=
  [0, 0, 0, 1, 3, 9, 7, 0, 0, 38, 0, 0, 0, 1, 6, 0, 0, 2, 0, 0, 2, 0, 0, 0, 0]

/-- C9.  Room count and bounds: every level `make_level` returns has
between 3 and 5 rooms, and every room satisfies `x ≥ MIN_SEP`,
`y ≥ MIN_SEP`, `width ∈ [5,20]`, `height ∈ [5,8]`,
`x + width + MIN_SEP < X_DIM` and `y + height + MIN_SEP < Y_DIM`. -/
theorem claim_C9_room_bounds (fuel : Nat) (s : Seeds) (g : Grid)
    (rooms : List Room) (h : makeLevel fuel s = some (g, rooms)) :
    3 ≤ rooms.length ∧ rooms.length ≤ 5 ∧ ∀ r ∈ rooms, roomOK r := by
  obtain ⟨g2, iU, iD, pU, pD, -, -, hro, -, h3, h5, -⟩ := makeLevel_decomp fuel s g rooms h
  exact ⟨h3, h5, hro⟩

/-- Witness for C9 on a concrete seed stream. -/
theorem claim_C9_witness :
    ∃ g rooms, makeLevel 9 seedsC4 = some (g, rooms) ∧
      (3 ≤ rooms.length ∧ rooms.length ≤ 5 ∧ ∀ r ∈ rooms, roomOK r) := by
  have hs : (makeLevel 9 seedsC4).isSome = true := by decide
  obtain ⟨⟨g, rooms⟩, hEq⟩ := Option.isSome_iff_exists.mp hs
  exact ⟨g, rooms, hEq, claim_C9_room_bounds 9 seedsC4 g rooms hEq⟩

/-- C10.  Transient marker never persists: every cell of a grid returned
by `make_level` is `Empty` or a committed tile (wall, floor, door,
corridor, staircase), and in particular never the in-progress marker. -/
theorem claim_C10_no_marker (fuel : Nat) (s : Seeds) (g : Grid)
    (rooms : List Room) (h : makeLevel fuel s = some (g, rooms)) :
    ∀ p : Pt, cellAt g p ≠ some '$' ∧
      (cellAt g p = none ∨ cellAt g p ∈
        ([some '-', some '|', some '.', some '+', some '#', some '<', some '>'] :
          List (Option Char))) := by
  obtain ⟨g2, iU, iD, pU, pD, -, hvals, -, -, -, -, -, -, -, -, -, hgdef⟩ :=
    makeLevel_decomp fuel s g rooms h
  intro p
  rw [hgdef]
  rcases cellAt_setCell_cases (setCell g2 pU (some '<')) pD (some '>') p with
    h1 | ⟨-, h1⟩
  · rw [h1]
    rcases cellAt_setCell_cases g2 pU (some '<') p with h2 | ⟨-, h2⟩
    · rw [h2]
      rcases hvals p with h3 | h3 | h3 | h3
      · rw [h3]; exact ⟨by decide, Or.inl rfl⟩
      · rcases h3 with h3 | h3 | h3 <;> rw [h3] <;> exact ⟨by decide, Or.inr (by decide)⟩
      · rw [h3]; exact ⟨by decide, Or.inr (by decide)⟩
      · rw [h3]; exact ⟨by decide, Or.inr (by decide)⟩
    · rw [h2]; exact ⟨by decide, Or.inr (by decide)⟩
  · rw [h1]; exact ⟨by decide, Or.inr (by decide)⟩

/-- Witness for C10 on a concrete seed stream. -/
theorem claim_C10_witness :
    ∃ g rooms, makeLevel 9 seedsC4 = some (g, rooms) ∧
      ∀ p : Pt, cellAt g p ≠ some '$' ∧
        (cellAt g p = none ∨ cellAt g p ∈
          ([some '-', some '|', some '.', some '+', some '#', some '<', some '>'] :
            List (Option Char))) := by
  have hs : (makeLevel 9 seedsC4).isSome = true := by decide
  obtain ⟨⟨g, rooms⟩, hEq⟩ := Option.isSome_iff_exists.mp hs
  exact ⟨g, rooms, hEq, claim_C10_no_marker 9 seedsC4 g rooms hEq⟩

/-- C8.  Staircase uniqueness: every level `make_level` returns has
exactly one `StairsUp` tile and exactly one `StairsDown` tile, and the
two lie in the interiors of rooms at two distinct indices. -/
theorem claim_C8_staircases (fuel : Nat) (s : Seeds) (g : Grid)
    (rooms : List Room) (h : makeLevel fuel s = some (g, rooms)) :
    (∃! p : Pt, cellAt g p = some '<') ∧
    (∃! p : Pt, cellAt g p = some '>') ∧
    ∃ i j, i < rooms.length ∧ j < rooms.length ∧ i ≠ j ∧
      ∃ pu pd : Pt, cellAt g pu = some '<' ∧ cellAt g pd = some '>' ∧
        inInterior (rooms.getD i ⟨0, 0, 0, 0⟩) pu ∧
        inInterior (rooms.getD j ⟨0, 0, 0, 0⟩) pd := by
  obtain ⟨g2, iU, iD, pU, pD, hdim2, hvals, hro, hpw, h3, h5, hiU, hiD, hne,
    hmemU, hmemD, hgdef⟩ := makeLevel_decomp fuel s g rooms h
  have hIntU := mem_interiorPoints hmemU
  have hIntD := mem_interiorPoints hmemD
  have hfpU := inInterior_inFp hIntU
  have hfpD := inInterior_inFp hIntD
  have hupOK : roomOK (rooms.getD iU ⟨0, 0, 0, 0⟩) :=
    hro _ (list_getD_mem rooms iU _ hiU)
  have hdnOK : roomOK (rooms.getD iD ⟨0, 0, 0, 0⟩) :=
    hro _ (list_getD_mem rooms iD _ hiD)
  have hbU : inBounds pU = true := roomOK_fp_inBounds hupOK hfpU
  have hbD : inBounds pD = true := roomOK_fp_inBounds hdnOK hfpD
  have hsep := pairwise_sep_getD hpw hiU hiD hne
  have hpUD : pU ≠ pD := fun he => hsep.1 pU ⟨hfpU, he ▸ hfpD⟩
  have hdim2' : dimsOK (setCell g2 pU (some '<')) = true := dimsOK_setCell _ _ hdim2
  have hcU : cellAt g pU = some '<' := by
    rw [hgdef, cellAt_setCell_other _ hpUD, cellAt_setCell_same _ hdim2 hbU]
  have hcD : cellAt g pD = some '>' := by
    rw [hgdef, cellAt_setCell_same _ hdim2' hbD]
  have hno : ∀ p, cellAt g2 p ≠ some '<' ∧ cellAt g2 p ≠ some '>' := by
    intro p
    obtain ⟨a, b, -⟩ := commit_no_stairs (hvals p)
    exact ⟨a, b⟩
  have hother : ∀ q : Pt, q ≠ pU → q ≠ pD → cellAt g q = cellAt g2 q := by
    intro q hqU hqD
    rw [hgdef, cellAt_setCell_other _ hqD, cellAt_setCell_other _ hqU]
  refine ⟨⟨pU, hcU, fun q hq => ?_⟩, ⟨pD, hcD, fun q hq => ?_⟩,
    iU, iD, hiU, hiD, hne, pU, pD, hcU, hcD, hIntU, hIntD⟩
  · simp only at hq
    by_cases hqD : q = pD
    · subst hqD
      rw [hcD] at hq
      exact absurd hq (by decide)
    · by_cases hqU : q = pU
      · exact hqU
      · rw [hother q hqU hqD] at hq
        exact absurd hq (hno q).1
  · simp only at hq
    by_cases hqU : q = pU
    · subst hqU
      rw [hcU] at hq
      exact absurd hq (by decide)
    · by_cases hqD : q = pD
      · exact hqD
      · rw [hother q hqU hqD] at hq
        exact absurd hq (hno q).2

/-- Witness for C8 on a concrete seed stream. -/
theorem claim_C8_witness :
    ∃ g rooms, makeLevel 9 seedsC4 = some (g, rooms) ∧
      ((∃! p : Pt, cellAt g p = some '<') ∧
       (∃! p : Pt, cellAt g p = some '>') ∧
       ∃ i j, i < rooms.length ∧ j < rooms.length ∧ i ≠ j ∧
         ∃ pu pd : Pt, cellAt g pu = some '<' ∧ cellAt g pd = some '>' ∧
           inInterior (rooms.getD i ⟨0, 0, 0, 0⟩) pu ∧
           inInterior (rooms.getD j ⟨0, 0, 0, 0⟩) pd) := by
  have hs : (makeLevel 9 seedsC4).isSome = true := by decide
  obtain ⟨⟨g, rooms⟩, hEq⟩ := Option.isSome_iff_exists.mp hs
  exact ⟨g, rooms, hEq, claim_C8_staircases 9 seedsC4 g rooms hEq⟩

/-- C4 as stated is false: on the level generated from `seedsC4`, the
first room `(2,2,8,6)` and the second `(11,9,5,5)` are accepted by
`fill_room` although they touch corner-to-corner diagonally — their
footprints extended by the `MIN_SEP` margin intersect (for example at
`(11,9)`).  The margin checks scan only the four axis-aligned lines at
exactly `MIN_SEP`, never the diagonal corners. -/
theorem claim_C4_counterexample :
    ∃ g rooms, makeLevel 9 seedsC4 = some (g, rooms) ∧
      ∃ r1 ∈ rooms, ∃ r2 ∈ rooms, r1 ≠ r2 ∧
        inExtFp r1 ⟨11, 9⟩ ∧ inExtFp r2 ⟨11, 9⟩ := by
  have hs : (makeLevel 9 seedsC4).isSome = true := by decide
  have hkey : ∃ r1 ∈ ((makeLevel 9 seedsC4).getD (emptyGrid, [])).2,
      ∃ r2 ∈ ((makeLevel 9 seedsC4).getD (emptyGrid, [])).2, r1 ≠ r2 ∧
        inExtFp r1 ⟨11, 9⟩ ∧ inExtFp r2 ⟨11, 9⟩ := by decide
  obtain ⟨⟨g, rooms⟩, hEq⟩ := Option.isSome_iff_exists.mp hs
  rw [hEq] at hkey
  simp only [Option.getD_some] at hkey
  exact ⟨g, rooms, hEq, hkey⟩

/-- C4 amended: what the placement checks really guarantee for every pair
of distinct rooms of a generated level — disjoint footprints, and a gap
of more than `MIN_SEP` tiles along any shared row or column; diagonal
corner separation is not enforced. -/
theorem claim_C4_amended (fuel : Nat) (s : Seeds) (g : Grid)
    (rooms : List Room) (h : makeLevel fuel s = some (g, rooms)) :
    ∀ i j, i < rooms.length → j < rooms.length → i ≠ j →
      sep (rooms.getD i ⟨0, 0, 0, 0⟩) (rooms.getD j ⟨0, 0, 0, 0⟩) := by
  obtain ⟨g2, iU, iD, pU, pD, -, -, -, hpw, -⟩ := makeLevel_decomp fuel s g rooms h
  intro i j hi hj hne
  exact pairwise_sep_getD hpw hi hj hne

/-- Witness for the amended C4 on a concrete seed stream. -/
theorem claim_C4_witness :
    ∃ g rooms, makeLevel 9 seedsC4 = some (g, rooms) ∧
      ∀ i j, i < rooms.length → j < rooms.length → i ≠ j →
        sep (rooms.getD i ⟨0, 0, 0, 0⟩) (rooms.getD j ⟨0, 0, 0, 0⟩) := by
  have hs : (makeLevel 9 seedsC4).isSome = true := by decide
  obtain ⟨⟨g, rooms⟩, hEq⟩ := Option.isSome_iff_exists.mp hs
  exact ⟨g, rooms, hEq, claim_C4_amended 9 seedsC4 g rooms hEq⟩

end Dungeon
